import Mathlib

/-!
Verification of the `ultra-tournament` bracket builder and solver.

Shallow embedding of `src/types.rs` and `src/tournament.rs` of the
`mcpar-land/ultra-tournament` crate.

Modelling conventions:
* `petgraph::Graph` is embedded as a list of node weights (index = `NodeIndex`,
  in insertion order) together with a list of `(source, target, weight)` edges
  in insertion order.  petgraph stores the outgoing edges of a node as a linked
  list onto which `add_edge` prepends, so `edges_directed`/`neighbors_directed`
  iterate the outgoing edges in *reverse* insertion order; `Graph.outEdges`
  below reverses the filtered list accordingly.
* `Arc<RwLock<E>>` handles are embedded as plain values of `E`; the battle
  system is embedded as a pair of pure functions (`battle`, `tiebreaker`).
  This erases two behaviours the Rust trait permits: mutation of entrants
  between rounds and randomness (the crate's example tiebreakers flip a
  coin).  Results that depend on outcomes *varying between calls* are
  therefore handled by explicitly constructing the tournament state that an
  effectful run leaves behind (see `T9`).
* Fallible Rust code returning `Result<T, TournamentError>` is embedded as
  `Except TournamentError`.  A Rust panic (`unwrap` on `None`) is embedded as
  `Option.none` for `Tournament.entrant`, and as the catch-all error carrying
  the string "panic" where it occurs inside the solver (unreachable there for
  graphs whose edges point at existing nodes).
* The recursive functions `_winner` and `solve_rec` recurse through child
  edges without any structural termination guarantee in Rust (they diverge on
  cyclic graphs, which cannot be produced by the builder).  They are embedded
  with an explicit fuel argument; the public entry points pass
  `nodes.length` fuel, which is enough for every acyclic graph, and the
  fuel-exhaustion outcome (modelling Rust divergence) is the error
  `.Other "out of fuel"`.
* `solve_rec` is instrumented to additionally return the number of
  `BattleSystem::battle` invocations performed and the pair of entrant values
  given to the final `battle` call of the round being solved.  These ghost
  outputs do not influence the computation; they embed the spec's
  "invocation-counting battle policy" and make the battled pair observable.
-/

/-- Embeds `TournamentEdge` from `src/types.rs`: the A/B label of an edge. -/
inductive TournamentEdge
  | A
  | B
deriving DecidableEq, Repr

/-- Embeds `TournamentRoundResult` from `src/types.rs`: which side won. -/
inductive TournamentRoundResult
  | A
  | B
deriving DecidableEq, Repr

/-- Embeds `impl From<TournamentRoundResult> for TournamentEdge`. -/
def TournamentRoundResult.toEdge : TournamentRoundResult → TournamentEdge
  | .A => .A
  | .B => .B

/-- Embeds `TournamentRound<M>` from `src/types.rs`. -/
inductive TournamentRound (M : Type)
  | Incomplete
  | Complete (result : TournamentRoundResult) (metadata : M)
deriving DecidableEq, Repr

/-- Embeds `TournamentNode<M>` from `src/types.rs`.  `EntrantId` is a wrapper
around a `usize`, embedded as a bare `Nat`. -/
inductive TournamentNode (M : Type)
  | Entrant (id : Nat)
  | Round (round : TournamentRound M)
deriving DecidableEq, Repr

/-- Embeds `BattleResult<M>` from `src/types.rs`. -/
inductive BattleResult (M : Type)
  | Solved (result : TournamentRoundResult) (metadata : M)
  | Tie
deriving DecidableEq, Repr

/-- Embeds `TournamentError` from `src/types.rs`. -/
inductive TournamentError
  | RoundNotFound (id : Nat)
  | EntrantNotFound (id : Nat)
  | MalformedBracket
  | NeedsAtLeastOneEntrant
  | Other (msg : String)
  | PrintFailure
deriving DecidableEq, Repr

deriving instance DecidableEq for Except

/-- Embeds the `BattleSystem<E, M>` trait from `src/types.rs` as a record of
its two operations.  The Rust operations receive `Arc<RwLock<E>>` handles and
may mutate entrants or act randomly; here they are pure functions of the two
entrant values, so a single run of a deterministic policy is modelled
exactly, while effectful runs are modelled by picking the state they leave
behind as the starting tournament. -/
structure BattleSystem (E M : Type) where
  battle : E → E → BattleResult M
  tiebreaker : E → E → TournamentRoundResult × M

/-- Embeds `petgraph::Graph<N, TournamentEdge>`: node weights indexed by
insertion order, edges as `(source, target, weight)` in insertion order. -/
structure Graph (N : Type) where
  nodes : List N
  edges : List (Nat × Nat × TournamentEdge)
deriving DecidableEq, Repr

/-- Embeds `Graph::add_node`: appends a weight, returns the new index. -/
def Graph.addNode (g : Graph N) (w : N) : Graph N × Nat :=
  ({ g with nodes := g.nodes ++ [w] }, g.nodes.length)

/-- Embeds `Graph::add_edge`. -/
def Graph.addEdge (g : Graph N) (s t : Nat) (w : TournamentEdge) : Graph N :=
  { g with edges := g.edges ++ [(s, t, w)] }

/-- Embeds `Graph::node_weight`. -/
def Graph.weight (g : Graph N) (id : Nat) : Option N :=
  g.nodes[id]?

/-- Embeds `*graph.node_weight_mut(id) = w` (for in-range `id`). -/
def Graph.setNode (g : Graph N) (id : Nat) (w : N) : Graph N :=
  { g with nodes := g.nodes.set id w }

/-- Embeds `graph.edges_directed(id, Outgoing)` as a list of
`(target, weight)` pairs.  petgraph prepends on `add_edge`, hence the
`reverse`: the most recently added outgoing edge comes first. -/
def Graph.outEdges (g : Graph N) (id : Nat) : List (Nat × TournamentEdge) :=
  ((g.edges.filter (fun e => e.1 == id)).reverse).map (fun e => (e.2.1, e.2.2))

/-- Embeds `graph.neighbors_directed(id, Outgoing)` (same iteration order as
`edges_directed`, targets only). -/
def Graph.outNeighbors (g : Graph N) (id : Nat) : List Nat :=
  (g.outEdges id).map (fun e => e.1)

/-- Embeds `Tournament<E, M, B>` from `src/tournament.rs` (the phantom
battle-system parameter `B` is passed explicitly to the solving functions). -/
structure Tournament (E M : Type) where
  graph : Graph (TournamentNode M)
  entrants : List E
  grand_finals : Nat
deriving DecidableEq, Repr

/-- Embeds `Tournament::add_layer` from `src/tournament.rs`.  Node and edge
insertion order follows the source exactly.  The `entrants.length ≤ 1` branch
combines the source's empty `len == 1` branch with the (unreachable from
`new`) `len == 0` input, on which the Rust code would recurse forever.  The
Rust recursion terminates because the entrant slice shrinks at every call;
the embedding makes this structural with a `fuel` parameter that is decreased
by one per call — since the slice length also decreases by at least one per
call, any `fuel ≥ entrants.length` (as passed by `Tournament.new`) behaves
exactly like the unbounded Rust recursion. -/
def add_layer (fuel : Nat) (old_graph : Graph (TournamentNode M)) (parent : Nat)
    (entrants : List Nat) : Graph (TournamentNode M) :=
  match fuel with
  | 0 => old_graph
  | fuel + 1 =>
    if entrants.length = 3 then
      -- add bye + recursion on other 2
      let (g1, p) := old_graph.addNode (.Round .Incomplete)
      let (g2, bye) := g1.addNode (.Entrant (entrants.headD 0))
      let g3 := (g2.addEdge parent p .A).addEdge parent bye .B
      add_layer fuel g3 p entrants.tail
    else if entrants.length = 2 then
      -- add regular
      let (g1, a) := old_graph.addNode (.Entrant (entrants.headD 0))
      let (g2, b) := g1.addNode (.Entrant (entrants.getD 1 0))
      (g2.addEdge parent a .A).addEdge parent b .B
    else if entrants.length ≤ 1 then
      -- add nothing
      old_graph
    else
      -- do recursion
      let vec_a := entrants.take (entrants.length / 2)
      let vec_b := entrants.drop (entrants.length / 2)
      let (g1, p_a) := old_graph.addNode (.Round .Incomplete)
      let (g2, p_b) := g1.addNode (.Round .Incomplete)
      let g3 := (g2.addEdge parent p_a .A).addEdge parent p_b .B
      add_layer fuel (add_layer fuel g3 p_a vec_a) p_b vec_b

/-- Embeds `Tournament::new` from `src/tournament.rs`. -/
def Tournament.new (entrants : List E) :
    Except TournamentError (Tournament E M) :=
  if entrants.length = 0 then
    .error .NeedsAtLeastOneEntrant
  else
    let entrant_ids := List.range entrants.length
    let g0 : Graph (TournamentNode M) := ⟨[], []⟩
    let (g1, grand_finals) :=
      if entrants.length = 1 then g0.addNode (.Entrant 0)
      else g0.addNode (.Round .Incomplete)
    .ok { graph := add_layer entrants.length g1 grand_finals entrant_ids
          entrants := entrants
          grand_finals := grand_finals }

/-- Embeds `Tournament::len_entrants`. -/
def Tournament.len_entrants (t : Tournament E M) : Nat :=
  t.entrants.length

/-- Embeds `Tournament::len_rounds`: counts all `Round` nodes. -/
def Tournament.len_rounds (t : Tournament E M) : Nat :=
  (t.graph.nodes.filter (fun n => match n with
    | .Round _ => true
    | _ => false)).length

/-- Embeds `Tournament::len_rounds_complete`. -/
def Tournament.len_rounds_complete (t : Tournament E M) : Nat :=
  (t.graph.nodes.filter (fun n => match n with
    | .Round (.Complete _ _) => true
    | _ => false)).length

/-- Embeds `Tournament::len_rounds_incomplete`. -/
def Tournament.len_rounds_incomplete (t : Tournament E M) : Nat :=
  (t.graph.nodes.filter (fun n => match n with
    | .Round .Incomplete => true
    | _ => false)).length

/-- Embeds the public `Tournament::entrant`, which does
`self.entrants.get(id.0).unwrap().clone()`: the `unwrap` panics when the id is
out of range, embedded as `none`. -/
def Tournament.entrant (t : Tournament E M) (id : Nat) : Option E :=
  t.entrants[id]?

/-- Embeds the entrant lookups inside `solve_rec`
(`entrants.get(i).ok_or(EntrantNotFound(i))`). -/
def getEntrant (entrants : List E) (i : Nat) : Except TournamentError E :=
  match entrants[i]? with
  | some e => .ok e
  | none => .error (.EntrantNotFound i)

/-- Embeds `Tournament::_child_node`: takes the first two outgoing edges in
iteration order and returns the target of the edge whose weight does *not*
match `target` (the source's "backwards" lookup, cf. the `TODO` comment at
`src/tournament.rs:223`). -/
def childNodeG (g : Graph N) (id : Nat) (target : TournamentEdge) :
    Except TournamentError Nat :=
  match g.outEdges id with
  | e0 :: e1 :: _ =>
    if e0.2 = target then .ok e1.1
    else if e1.2 = target then .ok e0.1
    else .error .MalformedBracket
  | _ => .error .MalformedBracket

/-- Embeds the public `Tournament::child_node`. -/
def Tournament.child_node (t : Tournament E M) (id : Nat)
    (target : TournamentEdge) : Except TournamentError Nat :=
  childNodeG t.graph id target

/-- Embeds the public `Tournament::child_nodes` (the `(A, B)` pair). -/
def Tournament.child_nodes (t : Tournament E M) (id : Nat) :
    Except TournamentError (Nat × Nat) :=
  match childNodeG t.graph id .A with
  | .error e => .error e
  | .ok a =>
    match childNodeG t.graph id .B with
    | .error e => .error e
    | .ok b => .ok (a, b)

/-- Embeds `Tournament::_winner` with explicit fuel (the Rust function
recurses through child edges with no fuel and diverges on cyclic graphs). -/
def winnerF (fuel : Nat) (g : Graph (TournamentNode M)) (id : Nat) :
    Except TournamentError (Option Nat) :=
  match fuel with
  | 0 => .error (.Other "out of fuel")
  | fuel + 1 =>
    match g.nodes[id]? with
    | none => .error (.RoundNotFound id)
    | some (.Entrant entrant_id) => .ok (some entrant_id)
    | some (.Round .Incomplete) => .ok none
    | some (.Round (.Complete result _)) =>
      match childNodeG g id result.toEdge with
      | .error e => .error e
      | .ok c => winnerF fuel g c

/-- `_winner` at the standard fuel (`nodes.length` suffices on every acyclic
graph, in particular on every builder-produced graph). -/
def winnerG (g : Graph (TournamentNode M)) (id : Nat) :
    Except TournamentError (Option Nat) :=
  winnerF g.nodes.length g id

/-- Embeds the public `Tournament::winner`. -/
def Tournament.winner (t : Tournament E M) (id : Nat) :
    Except TournamentError (Option Nat) :=
  winnerG t.graph id

/-- Embeds `Tournament::winner_entrant`.  The inner `Option E` embeds the
panic of `Tournament::entrant` (`none` = out-of-range id = Rust panic). -/
def Tournament.winner_entrant (t : Tournament E M) (id : Nat) :
    Except TournamentError (Option (Option E)) :=
  match t.winner id with
  | .error e => .error e
  | .ok w => .ok (w.map (fun eid => t.entrant eid))

/-- Embeds lines 396-404 of `src/tournament.rs`: the battled pair is fed to
`battle`, a `Tie` is resolved by `tiebreaker`, and the resulting
`(result, metadata)` pair is the one written into the round. -/
def roundOutcome (bs : BattleSystem E M) (arc_a arc_b : E) :
    TournamentRoundResult × M :=
  match bs.battle arc_a arc_b with
  | .Solved result metadata => (result, metadata)
  | .Tie => bs.tiebreaker arc_a arc_b

/-- Embeds the tail of `solve_rec` (lines 396-407): compute the round outcome
for the battled pair `(arc_a, arc_b)`, then overwrite node `id` with the
`Complete` round (`node_weight_mut(id).ok_or(RoundNotFound(id))`).
The returned tuple is `(graph, result, battleCount, arc_a, arc_b)`; the final
components are ghost instrumentation (one `battle` call happens here, hence
`subCount + 1`). -/
def finishRound (bs : BattleSystem E M) (g : Graph (TournamentNode M))
    (id : Nat) (arc_a arc_b : E) (subCount : Nat) :
    Except TournamentError
      (Graph (TournamentNode M) × TournamentRoundResult × Nat × E × E) :=
  let rm := roundOutcome bs arc_a arc_b
  match g.nodes[id]? with
  | none => .error (.RoundNotFound id)
  | some _ =>
    .ok (g.setNode id (.Round (.Complete rm.1 rm.2)), rm.1, subCount + 1,
      arc_a, arc_b)

/-- Embeds `Tournament::solve_rec` from `src/tournament.rs` (with the `do_bye`
macro expanded inline at its two invocation sites, as in the source after
macro expansion).

Faithfulness notes:
* `children.next()` pairs come from `outNeighbors` (reverse insertion order),
  so `a` is the most recently added child — the B-labelled one in
  builder-produced graphs.
* Rust's `Option::unwrap_or(expr)` evaluates `expr` *eagerly*; consequently
  every `_winner(..).unwrap_or({ solve_rec(..); _winner(..) })` pattern in the
  source always performs the inner `solve_rec`, even when the first `_winner`
  already produced a cached `Some` value.  The embedding reproduces this:
  in each such spot the recursive `solve_rec` call and the second `_winner`
  call are sequenced unconditionally, and only then is the first value
  preferred via `Option.getD`.
* Errors inside the eagerly evaluated block propagate (the block contains `?`
  operators), exactly as in the source. -/
def solve_rec (bs : BattleSystem E M) (fuel : Nat) (entrants : List E)
    (g : Graph (TournamentNode M)) (id : Nat) :
    Except TournamentError
      (Graph (TournamentNode M) × TournamentRoundResult × Nat × E × E) :=
  match fuel with
  | 0 => .error (.Other "out of fuel")
  | fuel + 1 =>
    match g.outNeighbors id with
    | [] => .error (.Other "Child A not found")
    | [_] => .error (.Other "Child B not found")
    | a :: b :: _ =>
      match g.nodes[a]?, g.nodes[b]? with
      | some (.Entrant id_a), some (.Entrant id_b) =>
        (match entrants[id_a]? with
         | none => .error (.EntrantNotFound id_a)
         | some arc_a =>
           match entrants[id_b]? with
           | none => .error (.EntrantNotFound id_b)
           | some arc_b => finishRound bs g id arc_a arc_b 0)
      | some (.Entrant ent_bye), some (.Round _) =>
        -- do_bye!(ent_bye, b, TournamentEdge::A)
        (match winnerG g b with
         | .error e => .error e
         | .ok w0 =>
           match solve_rec bs fuel entrants g b with
           | .error e => .error e
           | .ok (g1, _, c1, _, _) =>
             match winnerG g1 b with
             | .error e => .error e
             | .ok none => .error (.Other "Solving Bye failed")
             | .ok (some w1) =>
               let ent_round := w0.getD w1
               match entrants[ent_bye]? with
               | none => .error (.EntrantNotFound ent_bye)
               | some arc_bye =>
                 match entrants[ent_round]? with
                 | none => .error (.EntrantNotFound ent_round)
                 | some arc_round => finishRound bs g1 id arc_bye arc_round c1)
      | some (.Round _), some (.Entrant ent_bye) =>
        -- do_bye!(ent_bye, a, TournamentEdge::B)
        (match winnerG g a with
         | .error e => .error e
         | .ok w0 =>
           match solve_rec bs fuel entrants g a with
           | .error e => .error e
           | .ok (g1, _, c1, _, _) =>
             match winnerG g1 a with
             | .error e => .error e
             | .ok none => .error (.Other "Solving Bye failed")
             | .ok (some w1) =>
               let ent_round := w0.getD w1
               match entrants[ent_bye]? with
               | none => .error (.EntrantNotFound ent_bye)
               | some arc_bye =>
                 match entrants[ent_round]? with
                 | none => .error (.EntrantNotFound ent_round)
                 | some arc_round => finishRound bs g1 id arc_round arc_bye c1)
      | some (.Round _), some (.Round _) =>
        (match winnerG g a with
         | .error e => .error e
         | .ok w0a =>
           match solve_rec bs fuel entrants g a with
           | .error e => .error e
           | .ok (g1, _, c1, _, _) =>
             match winnerG g1 a with
             | .error e => .error e
             | .ok none => .error (.Other "Finding winner failed for A")
             | .ok (some w1a) =>
               let ent_a := w0a.getD w1a
               match winnerG g1 b with
               | .error e => .error e
               | .ok w0b =>
                 match solve_rec bs fuel entrants g1 b with
                 | .error e => .error e
                 | .ok (g2, _, c2, _, _) =>
                   match winnerG g2 b with
                   | .error e => .error e
                   | .ok none => .error (.Other "Finding winner failed for B")
                   | .ok (some w1b) =>
                     let ent_b := w0b.getD w1b
                     match entrants[ent_a]? with
                     | none => .error (.EntrantNotFound ent_a)
                     | some arc_a =>
                       match entrants[ent_b]? with
                       | none => .error (.EntrantNotFound ent_b)
                       | some arc_b =>
                         finishRound bs g2 id arc_a arc_b (c1 + c2))
      | _, _ => .error (.Other "panic: node_weight unwrap")

/-- Embeds `Tournament::solve_round`: runs `solve_rec` on a clone of the
graph and commits the clone back into the tournament only on success (on
error the `?` operator returns before `self.graph = graph`).  The success
payload carries the ghost battle count and final battled pair from
`solve_rec`. -/
def Tournament.solve_round (t : Tournament E M) (bs : BattleSystem E M)
    (id : Nat) :
    Tournament E M × Except TournamentError (TournamentRoundResult × Nat × E × E) :=
  match solve_rec bs t.graph.nodes.length t.entrants t.graph id with
  | .ok (g1, result, c, ea, eb) =>
    ({ t with graph := g1 }, .ok (result, c, ea, eb))
  | .error e => (t, .error e)

/-- Embeds `Tournament::solve`: `solve_round` at the grand finals. -/
def Tournament.solve (t : Tournament E M) (bs : BattleSystem E M) :
    Tournament E M × Except TournamentError (TournamentRoundResult × Nat × E × E) :=
  t.solve_round bs t.grand_finals

/-! ## Concrete instances used by the tests and worked examples

`IntFighter` from `src/test/test_tournament.rs` is embedded as a bare `Nat`
(the tested values are below 1000, where the crate's locale formatting agrees
with plain decimal notation).  Its `Display` is `"Int Fighter: {n}"`. -/

/-- `Display` of `IntFighter` from `src/test/test_tournament.rs`. -/
def intFighterDisplay (n : Nat) : String :=
  "Int Fighter: " ++ toString n

/-- Embeds `IntBattleSystem` from `src/test/test_tournament.rs`: the larger
integer wins, equal integers tie, and the metadata string records the margin.
The random tiebreaker is embedded as the deterministic `A` outcome (ties are
never reached by the distinct-valued examples below). -/
def IB : BattleSystem Nat String where
  battle a b :=
    if a = b then .Tie
    else
      let delta := if a > b then a - b else b - a
      let w := if a > b then (TournamentRoundResult.A, a)
               else (TournamentRoundResult.B, b)
      .Solved w.1 (intFighterDisplay w.2 ++ " wins by " ++ toString delta ++ "!")
  tiebreaker _ _ := (.A, "A won by random tiebreaker.")

/-- A default (empty) tournament used only to strip the `Except` wrapper from
`Tournament.new` on inputs where it is proven to succeed. -/
def emptyT : Tournament Nat String := ⟨⟨[], []⟩, [], 0⟩

/-- The single-entrant tournament `new([42])`. -/
def t1 : Tournament Nat String :=
  ((Tournament.new [42]).toOption).getD emptyT

/-- The two-entrant tournament `new([10, 20])`. -/
def t2 : Tournament Nat String :=
  ((Tournament.new [10, 20]).toOption).getD emptyT

/-- The four-entrant tournament `new([1, 2, 3, 4])`. -/
def t4 : Tournament Nat String :=
  ((Tournament.new [1, 2, 3, 4]).toOption).getD emptyT

/-- The ten-entrant tournament of `winner_127_tournament()` in
`src/test/test_tournament.rs`: entrants `[6,1,2,9,3,4,127,5,8,7]`. -/
def t10 : Tournament Nat String :=
  ((Tournament.new [6, 1, 2, 9, 3, 4, 127, 5, 8, 7]).toOption).getD emptyT

/-- The two-entrant tournament `new([5, 5])` whose single round is a tie
under `IB`. -/
def t5tie : Tournament Nat String :=
  ((Tournament.new [5, 5]).toOption).getD emptyT

/-- A hand-tampered tournament (the spec's error conditions only arise after
"manipulating the graph's structure"): the root's B child is an entrant leaf
whose id `5` is out of range for the two-element entrant list, while the A
child is an ordinary solvable round over entrants `0` and `1`. -/
def T7 : Tournament Nat String where
  graph :=
    { nodes := [.Round .Incomplete, .Round .Incomplete, .Entrant 0,
                .Entrant 1, .Entrant 5]
      edges := [(0, 1, .A), (0, 4, .B), (1, 2, .A), (1, 3, .B)] }
  entrants := [10, 20]
  grand_finals := 0

/-- The tournament state that `new([5, 5])` followed by one `solve()` leaves
behind whenever the crate's coin-flip tiebreaker (`IntBattleSystem` in
`src/test/test_tournament.rs`) returns `B` — probability one half: topology
exactly as built by `new([5, 5])`, with the root already
`Complete(B, "B won by random tiebreaker.")`.  Solving again re-battles the
root (there is no completeness check) and the tiebreaker's other branch
overwrites it with `Complete(A, "A won by random tiebreaker.")`. -/
def T9 : Tournament Nat String where
  graph :=
    { nodes := [.Round (.Complete .B "B won by random tiebreaker."),
                .Entrant 0, .Entrant 1]
      edges := [(0, 1, .A), (0, 2, .B)] }
  entrants := [5, 5]
  grand_finals := 0

/-- Number of `Entrant` leaf nodes in a graph. -/
def countEntrantNodes (g : Graph (TournamentNode M)) : Nat :=
  (g.nodes.filter (fun n => match n with
    | .Entrant _ => true
    | _ => false)).length

/-- Number of `Round` nodes in a graph. -/
def countRoundNodes (g : Graph (TournamentNode M)) : Nat :=
  (g.nodes.filter (fun n => match n with
    | .Round _ => true
    | _ => false)).length

/-! ## Well-formedness invariants

Builder-produced graphs satisfy all three predicates below, and the solver
preserves them (proved later).  They delimit the graphs on which the frame
property of solving can hold at all: on hand-tampered graphs the solver can
overwrite arbitrary nodes. -/

/-- Whether node `id` is an `Entrant` leaf. -/
def isEntrantNode (g : Graph (TournamentNode M)) (id : Nat) : Bool :=
  match g.nodes[id]? with
  | some (.Entrant _) => true
  | _ => false

/-- Every edge goes from a lower index to a strictly higher index.  True of
every builder-produced graph (children are always freshly appended nodes);
implies acyclicity. -/
def EdgesIncrease (g : Graph N) : Prop :=
  ∀ e ∈ g.edges, e.1 < e.2.1

/-- No edge leaves an `Entrant` node: entrant leaves have no children. -/
def LeafNoChildren (g : Graph (TournamentNode M)) : Prop :=
  ∀ e ∈ g.edges, isEntrantNode g e.1 = false

/-- The pair of entrant ids that `solve_rec` would battle given children
`a`, `b` (in iteration order), mirroring its child-shape analysis: entrant
leaves supply their own id, round children supply their current winner.
`none` when a winner is unavailable or the shape is malformed. -/
def combatantsAux (g : Graph (TournamentNode M)) (a b : Nat) :
    Option (Nat × Nat) :=
  match g.nodes[a]?, g.nodes[b]? with
  | some (.Entrant ia), some (.Entrant ib) => some (ia, ib)
  | some (.Entrant bye), some (.Round _) =>
    match winnerG g b with
    | .ok (some w) => some (bye, w)
    | _ => none
  | some (.Round _), some (.Entrant bye) =>
    match winnerG g a with
    | .ok (some w) => some (w, bye)
    | _ => none
  | some (.Round _), some (.Round _) =>
    match winnerG g a, winnerG g b with
    | .ok (some wa), .ok (some wb) => some (wa, wb)
    | _, _ => none
  | _, _ => none

/-- The pair of entrant ids that `solve_rec` would battle at node `id`: its
first two (reverse-insertion-order) children fed to `combatantsAux`. -/
def combatants (g : Graph (TournamentNode M)) (id : Nat) : Option (Nat × Nat) :=
  match g.outNeighbors id with
  | a :: b :: _ => combatantsAux g a b
  | _ => none

/-- Node `n` is consistent: if it is a `Complete` round, its stored
`(result, metadata)` pair is exactly the round outcome of its current
combatants.  Every round completed by `solve_rec` has this property. -/
def consistentAt (bs : BattleSystem E M) (entrants : List E)
    (g : Graph (TournamentNode M)) (n : Nat) : Prop :=
  match g.nodes[n]? with
  | some (.Round (.Complete r m)) =>
    match combatants g n with
    | some (ia, ib) =>
      match entrants[ia]?, entrants[ib]? with
      | some ea, some eb => (r, m) = roundOutcome bs ea eb
      | _, _ => False
    | none => False
  | _ => True

/-- All nodes of the graph are consistent. -/
def Consistent (bs : BattleSystem E M) (entrants : List E)
    (g : Graph (TournamentNode M)) : Prop :=
  ∀ n, n < g.nodes.length → consistentAt bs entrants g n

/-- The evolution order of graphs under solving: identical topology, and each
node is either unchanged or has moved from `Incomplete` to some `Complete`
round. -/
def GraphLE (g g' : Graph (TournamentNode M)) : Prop :=
  g'.edges = g.edges ∧ g'.nodes.length = g.nodes.length ∧
  ∀ n : Nat, g'.nodes[n]? = g.nodes[n]? ∨
    (g.nodes[n]? = some (TournamentNode.Round .Incomplete) ∧
     ∃ (r : TournamentRoundResult) (mm : M),
       g'.nodes[n]? = some (TournamentNode.Round (.Complete r mm)))

/-- The policy-independent evolution order of graphs under solving:
identical topology, and each node is either unchanged or is a `Round` node
that now holds some `Complete` round.  Unlike `GraphLE` this does *not* say
the changed node was `Incomplete` before: the solver re-battles
already-`Complete` rounds, and an effectful battle policy can then overwrite
a `Complete` payload with a different one. -/
def GraphLEW (g g' : Graph (TournamentNode M)) : Prop :=
  g'.edges = g.edges ∧ g'.nodes.length = g.nodes.length ∧
  ∀ n : Nat, g'.nodes[n]? = g.nodes[n]? ∨
    ((∃ rd, g.nodes[n]? = some (TournamentNode.Round rd)) ∧
     ∃ (res : TournamentRoundResult) (mm : M),
       g'.nodes[n]? = some (TournamentNode.Round (.Complete res mm)))

/-- Decidability of the solver invariants (used to discharge hypotheses
on concrete tournaments). -/
instance (g : Graph N) : Decidable (EdgesIncrease g) := by
  unfold EdgesIncrease
  exact List.decidableBAll _ _

instance (g : Graph (TournamentNode M)) : Decidable (LeafNoChildren g) := by
  unfold LeafNoChildren
  exact List.decidableBAll _ _

instance (bs : BattleSystem E M) [DecidableEq M] (entrants : List E)
    (g : Graph (TournamentNode M)) (n : Nat) :
    Decidable (consistentAt bs entrants g n) := by
  unfold consistentAt
  repeat' split
  all_goals infer_instance

instance (bs : BattleSystem E M) [DecidableEq M] (entrants : List E)
    (g : Graph (TournamentNode M)) :
    Decidable (Consistent bs entrants g) := by
  unfold Consistent
  infer_instance

/-! ## Theorems -/

/-- Helper: fuel monotonicity of `_winner` — once the walk succeeds with some
fuel, any larger fuel gives the same answer. -/
theorem winnerF_mono {g : Graph (TournamentNode M)} :
    ∀ f f' id v, winnerF f g id = .ok v → f ≤ f' → winnerF f' g id = .ok v := by
  intro f
  induction f with
  | zero => intro f' id v h; simp [winnerF] at h
  | succ f ih =>
    intro f' id v h hle
    match f', hle with
    | f' + 1, hle =>
      rw [winnerF] at h ⊢
      split at h
      · exact absurd h (by simp)
      · exact h
      · exact h
      · split at h
        · exact absurd h (by simp)
        · rename_i c heq
          exact ih f' c v h (Nat.le_of_succ_le_succ hle)

/-- Helper: a successful index lookup is in range. -/
theorem get?_some_lt {l : List α} {n : Nat} {a : α} (h : l[n]? = some a) :
    n < l.length := by
  by_contra hn
  rw [List.getElem?_eq_none (Nat.le_of_not_lt hn)] at h
  exact Option.noConfusion h

/-- C10: for every node with exactly one A-labelled and one B-labelled
outgoing edge — in either iteration order — the public `child_node` lookup
returns the child reached by the edge labelled with the *opposite* side of
the requested one. -/
theorem C10_child_node_swaps_sides (t : Tournament E M) (id ta tb : Nat)
    (h : t.graph.outEdges id = [(ta, .A), (tb, .B)] ∨
         t.graph.outEdges id = [(tb, .B), (ta, .A)]) :
    t.child_node id .A = .ok tb ∧ t.child_node id .B = .ok ta := by
  rcases h with h | h <;> simp [Tournament.child_node, childNodeG, h]

/-- Witness for `C10_child_node_swaps_sides` at the ten-entrant example: the
root's A-edge leads to node 1 and its B-edge to node 2, and `child_node`
returns them swapped. -/
theorem C10_witness :
    t10.graph.outEdges 0 = [(2, .B), (1, .A)] ∧
    (t10.child_node 0 .A = .ok 2 ∧ t10.child_node 0 .B = .ok 1) :=
  ⟨by decide, C10_child_node_swaps_sides t10 0 1 2 (Or.inr (by decide))⟩

/-- C1 (code bug): `solve` is *not* memoized.  Rust's `Option::unwrap_or`
evaluates its argument eagerly, so every `_winner(..).unwrap_or({ solve_rec(..); .. })`
in `solve_rec` re-solves (and re-battles) already-Complete descendants, and
`solve_rec` never checks whether its own node is already Complete.  On the
four-entrant tournament the first `solve` makes 3 battle invocations (= N−1),
after which every round is Complete; calling `solve` again still makes 3
fresh battle invocations, for a running total of 6 ≠ N−1. -/
theorem C1_solve_reinvokes_battle_on_complete_rounds :
    (t4.solve IB).2 = .ok (.A, 3, 4, 2) ∧
    (t4.solve IB).1.len_rounds_complete = 3 ∧
    (t4.solve IB).1.len_rounds_incomplete = 0 ∧
    ((t4.solve IB).1.solve IB).2 = .ok (.A, 3, 4, 2) := by decide

/-- C3 (code bug): on the degenerate single-entrant tournament (zero rounds,
whose sole entrant is already its own winner without any battle), `solve()`
does not succeed: `solve_rec` is entered on the leaf grand-finals node, finds
no children, and aborts with the internal-invariant catch-all error
`Other("Child A not found")`.  For a representative multi-entrant input
(N = 10) `solve` succeeds and the claimed counts hold. -/
theorem C3_solve_fails_on_single_entrant :
    t1.len_rounds = 0 ∧
    t1.winner_entrant t1.grand_finals = .ok (some (some 42)) ∧
    (t1.solve IB).2 = .error (.Other "Child A not found") ∧
    (t10.solve IB).2 = .ok (.A, 9, 127, 9) ∧
    (t10.solve IB).1.len_rounds_incomplete = 0 ∧
    (t10.solve IB).1.len_rounds_complete = 9 := by decide

/-- C5: the worked bye example.  Building from `[6,1,2,9,3,4,127,5,8,7]`
with the larger-integer-wins battle system and solving the root yields:
result `A` at the grand finals with 9 total battles, final battled pair
`(127, 9)` (the finalists), overall winner entrant id 6 (the entrant with
value 127, reported by both `winner` and `winner_entrant`), and grand-finals
metadata `"Int Fighter: 127 wins by 118!"` (margin 118 = 127 − 9), matching
the repository's `solve`, `metadata` and `result_accessors` tests. -/
theorem C5_winner_127_grand_finals :
    (t10.solve IB).2 = .ok (.A, 9, 127, 9) ∧
    (t10.solve IB).1.grand_finals = 0 ∧
    (t10.solve IB).1.winner 0 = .ok (some 6) ∧
    (t10.solve IB).1.winner_entrant 0 = .ok (some (some 127)) ∧
    (t10.solve IB).1.graph.nodes[0]? =
      some (.Round (.Complete .A "Int Fighter: 127 wins by 118!")) := by decide

/-- C8 counterexample: the public `entrant` accessor does `.get(..).unwrap()`
and therefore *panics* (embedded as `none`) on an out-of-range id — it cannot
report `EntrantNotFound` to the caller (its Rust return type is
`Arc<RwLock<E>>`, not `Result`). -/
theorem C8_counterexample_entrant_panics :
    t2.len_entrants = 2 ∧ t2.entrant 5 = none := by decide

/-- C8 amended: entrant lookups *inside the solver* fail with
`EntrantNotFound` for every out-of-range id, but the public `entrant(id)`
accessor panics (modelled as `none`) instead of returning the typed error. -/
theorem C8_amended_internal_lookup_errors (t : Tournament E M) (i : Nat)
    (h : t.entrants.length ≤ i) :
    t.entrant i = none ∧ getEntrant t.entrants i = .error (.EntrantNotFound i) := by
  have hn : t.entrants[i]? = none := List.getElem?_eq_none h
  exact ⟨hn, by unfold getEntrant; rw [hn]⟩

/-- Witness for `C8_amended_internal_lookup_errors` at `t2` and id 5. -/
theorem C8_amended_witness :
    t2.entrants.length ≤ 5 ∧
    (t2.entrant 5 = none ∧
     getEntrant t2.entrants 5 = .error (.EntrantNotFound 5)) :=
  ⟨by decide, C8_amended_internal_lookup_errors t2 5 (by decide)⟩

/-- C7 counterexample: partial progress inside a failing solve call is
*rolled back*, not preserved.  On the tampered tournament `T7` the solve of
the root first successfully completes round 1 inside the call (middle
conjunct: the very sub-solve performed by the failing call succeeds and
completes node 1), then fails looking up the out-of-range bye entrant 5 —
and afterwards round 1 is still `Incomplete` in the tournament, because
`solve_round` commits its working graph only on success. -/
theorem C7_counterexample_progress_rolled_back :
    (T7.solve_round IB 0).2 = .error (.EntrantNotFound 5) ∧
    solve_rec IB T7.graph.nodes.length T7.entrants T7.graph 1 =
      .ok (⟨[.Round .Incomplete,
             .Round (.Complete .A "Int Fighter: 20 wins by 10!"),
             .Entrant 0, .Entrant 1, .Entrant 5],
            [(0, 1, .A), (0, 4, .B), (1, 2, .A), (1, 3, .B)]⟩, .A, 1, 20, 10) ∧
    (T7.solve_round IB 0).1.graph.nodes[1]? = some (.Round .Incomplete) := by
  decide

/-- C7 amended: whenever a `solve`/`solve_round` call fails with any error,
the tournament is left exactly as it was before the call — previously-solved
state is intact because *nothing* changes; partial progress made within the
failing call is discarded (the working graph is committed only on success). -/
theorem C7_amended_failed_solve_leaves_tournament_unchanged
    (bs : BattleSystem E M) (t : Tournament E M) (id : Nat)
    (e : TournamentError) (h : (t.solve_round bs id).2 = .error e) :
    (t.solve_round bs id).1 = t := by
  unfold Tournament.solve_round at h ⊢
  split at h
  · exact absurd h (by simp)
  · rfl

/-- Witness for `C7_amended_failed_solve_leaves_tournament_unchanged`: the
single-entrant solve fails and leaves the tournament unchanged. -/
theorem C7_amended_witness :
    (t1.solve_round IB 0).2 = .error (.Other "Child A not found") ∧
    (t1.solve_round IB 0).1 = t1 :=
  ⟨by decide,
   C7_amended_failed_solve_leaves_tournament_unchanged IB t1 0
     (.Other "Child A not found") (by decide)⟩

/-- C2 counterexample: the winner of a Complete round is *not* obtained by
following the child edge whose label matches the stored result.  Solving the
two-entrant tournament `[10, 20]` stores result `A` at the root; the
A-labelled edge from the root leads to node 1, whose winner is entrant 0;
yet `winner(root)` is entrant 1 (the winner of the *B*-labelled child,
node 2). -/
theorem C2_counterexample_winner_follows_opposite_edge :
    (t2.solve IB).1.graph.nodes[0]? =
      some (.Round (.Complete .A "Int Fighter: 20 wins by 10!")) ∧
    (t2.solve IB).1.graph.edges = [(0, 1, .A), (0, 2, .B)] ∧
    (t2.solve IB).1.winner 1 = .ok (some 0) ∧
    (t2.solve IB).1.winner 0 = .ok (some 1) := by decide

/-- C2 amended: winner lookup behaves as claimed on `Entrant` leaves and
`Incomplete` rounds; for a `Complete` round it recurses into the child
returned by `_child_node` applied to the stored result — which, whenever the
node has exactly one A-labelled and one B-labelled outgoing edge (in either
iteration order), is the child on the edge labelled with the *opposite* side
of the stored result. -/
theorem C2_amended_winner_resolution (g : Graph (TournamentNode M)) (id : Nat) :
    (∀ e, g.nodes[id]? = some (.Entrant e) → winnerG g id = .ok (some e)) ∧
    (g.nodes[id]? = some (.Round .Incomplete) → winnerG g id = .ok none) ∧
    (∀ r m w c, g.nodes[id]? = some (.Round (.Complete r m)) →
       childNodeG g id r.toEdge = .ok c →
       winnerG g id = .ok (some w) → winnerG g c = .ok (some w)) ∧
    (∀ r m ta tb, g.nodes[id]? = some (.Round (.Complete r m)) →
       (g.outEdges id = [(ta, .A), (tb, .B)] ∨
        g.outEdges id = [(tb, .B), (ta, .A)]) →
       childNodeG g id r.toEdge =
         .ok (match r with | .A => tb | .B => ta)) := by
  refine ⟨?_, ?_, ?_, ?_⟩
  · intro e he
    obtain ⟨k, hk⟩ : ∃ k, g.nodes.length = k + 1 :=
      ⟨g.nodes.length - 1, by have := get?_some_lt he; omega⟩
    unfold winnerG
    rw [hk]
    simp [winnerF, he]
  · intro he
    obtain ⟨k, hk⟩ : ∃ k, g.nodes.length = k + 1 :=
      ⟨g.nodes.length - 1, by have := get?_some_lt he; omega⟩
    unfold winnerG
    rw [hk]
    simp [winnerF, he]
  · intro r m w c hid hc hw
    obtain ⟨k, hk⟩ : ∃ k, g.nodes.length = k + 1 :=
      ⟨g.nodes.length - 1, by have := get?_some_lt hid; omega⟩
    unfold winnerG at hw ⊢
    rw [hk] at hw
    simp only [winnerF, hid, hc] at hw
    exact winnerF_mono k g.nodes.length c (some w) hw (by omega)
  · intro r m ta tb _ hedges
    rcases hedges with h | h <;>
      cases r <;>
        simp [childNodeG, h, TournamentRoundResult.toEdge]

/-- Witness for `C2_amended_winner_resolution`, instantiating all four parts
on the two-entrant example (`(t2.solve IB).1.graph` solved, `t2.graph`
unsolved): leaf winner, incomplete round, recursion into the child chosen by
`_child_node`, and the opposite-side child selection. -/
theorem C2_amended_witness :
    winnerG (t2.solve IB).1.graph 1 = .ok (some 0) ∧
    winnerG t2.graph 0 = .ok none ∧
    winnerG (t2.solve IB).1.graph 2 = .ok (some 1) ∧
    childNodeG (t2.solve IB).1.graph 0 TournamentRoundResult.A.toEdge = .ok 2 :=
  ⟨(C2_amended_winner_resolution (t2.solve IB).1.graph 1).1 0 (by decide),
   (C2_amended_winner_resolution t2.graph 0).2.1 (by decide),
   (C2_amended_winner_resolution (t2.solve IB).1.graph 0).2.2.1
     .A "Int Fighter: 20 wins by 10!" 1 2 (by decide) (by decide) (by decide),
   (C2_amended_winner_resolution (t2.solve IB).1.graph 0).2.2.2
     .A "Int Fighter: 20 wins by 10!" 1 2 (by decide) (Or.inr (by decide))⟩

/-- Helper: inversion for `finishRound` — success determines the written
node, the returned result, count and battled pair, and requires `id` to be
present. -/
theorem finishRound_ok {bs : BattleSystem E M} {g : Graph (TournamentNode M)}
    {id : Nat} {a b : E} {sc : Nat} {g' : Graph (TournamentNode M)}
    {r : TournamentRoundResult} {c : Nat} {ea eb : E}
    (h : finishRound bs g id a b sc = .ok (g', r, c, ea, eb)) :
    g' = g.setNode id
      (.Round (.Complete (roundOutcome bs a b).1 (roundOutcome bs a b).2)) ∧
    r = (roundOutcome bs a b).1 ∧ c = sc + 1 ∧ ea = a ∧ eb = b ∧
    ∃ w, g.nodes[id]? = some w := by
  unfold finishRound at h
  split at h
  · exact absurd h (by simp)
  · rename_i w hw
    obtain ⟨h1, h2, h3, h4, h5⟩ : g.setNode id _ = g' ∧ _ = r ∧ sc + 1 = c ∧
        a = ea ∧ b = eb := by simpa using h
    exact ⟨h1.symm, h2.symm, h3.symm, h4.symm, h5.symm, w, hw⟩

/-- C6: whenever `solve_rec` completes a round, the `(result, metadata)` pair
written into the node is the `roundOutcome` of the battled pair `(ea, eb)` —
and whenever the battle of that pair is a `Tie`, that recorded pair is
exactly what `tiebreaker` returns for the same two entrants (invoked
immediately, per lines 396-399 of `src/tournament.rs`). -/
theorem C6_tie_recorded_pair_is_tiebreaker (bs : BattleSystem E M)
    (fuel : Nat) (entrants : List E) (g g' : Graph (TournamentNode M))
    (id : Nat) (r : TournamentRoundResult) (c : Nat) (ea eb : E)
    (h : solve_rec bs fuel entrants g id = .ok (g', r, c, ea, eb)) :
    g'.nodes[id]? = some (.Round (.Complete (roundOutcome bs ea eb).1
      (roundOutcome bs ea eb).2)) ∧
    r = (roundOutcome bs ea eb).1 ∧
    (bs.battle ea eb = .Tie →
      g'.nodes[id]? = some (.Round (.Complete (bs.tiebreaker ea eb).1
        (bs.tiebreaker ea eb).2))) := by
  have key : ∃ g0 sc, finishRound bs g0 id ea eb sc = .ok (g', r, c, ea, eb) := by
    match fuel with
    | 0 => simp [solve_rec] at h
    | fuel + 1 =>
      rw [solve_rec] at h
      repeat' (first | split at h | dsimp only at h)
      all_goals
        first
          | (obtain ⟨_, _, _, ha, hb, _⟩ := finishRound_ok h
             subst ha; subst hb
             exact ⟨_, _, h⟩)
          | simp at h
  obtain ⟨g0, sc, hf⟩ := key
  obtain ⟨hg', _, _, _, _, w, hw⟩ := finishRound_ok hf
  have hlt : id < g0.nodes.length := get?_some_lt hw
  have hnode : g'.nodes[id]? = some (.Round (.Complete (roundOutcome bs ea eb).1
      (roundOutcome bs ea eb).2)) := by
    rw [hg']
    exact List.getElem?_set_eq_of_lt _ hlt
  refine ⟨hnode, ?_, ?_⟩
  · obtain ⟨_, hr, _⟩ := finishRound_ok hf
    exact hr
  · intro htie
    have : roundOutcome bs ea eb = bs.tiebreaker ea eb := by
      unfold roundOutcome
      rw [htie]
    rw [hnode, this]

/-- Witness for `C6_tie_recorded_pair_is_tiebreaker`: solving the tied
two-entrant tournament `[5, 5]` records exactly the tiebreaker's pair at the
root. -/
theorem C6_witness :
    IB.battle 5 5 = .Tie ∧
    (t5tie.solve IB).2 = .ok (.A, 1, 5, 5) ∧
    (t5tie.solve IB).1.graph.nodes[0]? =
      some (.Round (.Complete (IB.tiebreaker 5 5).1 (IB.tiebreaker 5 5).2)) :=
  ⟨by decide, by decide,
   (C6_tie_recorded_pair_is_tiebreaker IB t5tie.graph.nodes.length
     t5tie.entrants t5tie.graph (t5tie.solve IB).1.graph 0 .A 1 5 5
     (by decide)).2.2 (by decide)⟩

/-- Helper: counts over an extended node list. -/
theorem countEntrantNodes_mk (ns : List (TournamentNode M))
    (es : List (Nat × Nat × TournamentEdge)) :
    countEntrantNodes ⟨ns, es⟩ = (ns.filter (fun n => match n with
      | .Entrant _ => true
      | _ => false)).length := rfl

/-- Helper: counts over an extended node list. -/
theorem countRoundNodes_mk (ns : List (TournamentNode M))
    (es : List (Nat × Nat × TournamentEdge)) :
    countRoundNodes ⟨ns, es⟩ = (ns.filter (fun n => match n with
      | .Round _ => true
      | _ => false)).length := rfl

/-- Helper: `add_layer` adds exactly `ids.length` entrant leaves and
`ids.length − 2` round nodes for every id list of length ≥ 2, given enough
fuel (`Tournament.new` always passes enough). -/
theorem add_layer_counts (fuel : Nat) :
    ∀ (ids : List Nat) (g : Graph (TournamentNode M)) (p : Nat),
    2 ≤ ids.length → ids.length ≤ fuel →
    countEntrantNodes (add_layer fuel g p ids) = countEntrantNodes g + ids.length ∧
    countRoundNodes (add_layer fuel g p ids) = countRoundNodes g + (ids.length - 2) := by
  induction fuel with
  | zero => intro ids g p h2 hf; omega
  | succ fuel ih =>
    intro ids g p h2 hf
    rw [add_layer]
    by_cases h3 : ids.length = 3
    · rw [if_pos h3]
      simp only [Graph.addNode, Graph.addEdge]
      have htl : ids.tail.length = 2 := by
        simp only [List.length_tail]; omega
      obtain ⟨hE, hR⟩ := ih ids.tail _ _ (by omega) (by omega)
      rw [hE, hR]
      simp [countEntrantNodes, countRoundNodes, List.filter_append]
      omega
    · rw [if_neg h3]
      by_cases hl2 : ids.length = 2
      · rw [if_pos hl2]
        simp only [Graph.addNode, Graph.addEdge]
        simp [countEntrantNodes, countRoundNodes, List.filter_append]
        omega
      · rw [if_neg hl2, if_neg (by omega)]
        simp only [Graph.addNode, Graph.addEdge]
        have hla : (ids.take (ids.length / 2)).length = ids.length / 2 := by
          simp only [List.length_take]; omega
        have hlb : (ids.drop (ids.length / 2)).length = ids.length - ids.length / 2 := by
          simp only [List.length_drop]
        obtain ⟨hEa, hRa⟩ := ih (ids.take (ids.length / 2)) _ _ (by omega) (by omega)
        obtain ⟨hEb, hRb⟩ := ih (ids.drop (ids.length / 2)) _ _ (by omega) (by omega)
        rw [hEb, hEa, hRb, hRa]
        simp [countEntrantNodes, countRoundNodes, List.filter_append]
        omega

/-- C4: building a bracket from any `N ≥ 1` entrants succeeds and yields a
graph with exactly `N` `Entrant` leaf nodes and exactly `N − 1` `Round`
nodes. -/
theorem C4_entrant_and_round_counts (entrants : List E)
    (h : 1 ≤ entrants.length) :
    (Tournament.new (M := M) entrants).map
      (fun t => (countEntrantNodes t.graph, countRoundNodes t.graph)) =
    .ok (entrants.length, entrants.length - 1) := by
  unfold Tournament.new
  rw [if_neg (by omega)]
  by_cases h1 : entrants.length = 1
  · simp only [h1, Except.map, if_pos rfl]
    rfl
  · simp only [if_neg h1]
    obtain ⟨hE, hR⟩ := add_layer_counts (M := M) entrants.length
      (List.range entrants.length)
      ((⟨[], []⟩ : Graph (TournamentNode M)).addNode (.Round .Incomplete)).1
      ((⟨[], []⟩ : Graph (TournamentNode M)).addNode (.Round .Incomplete)).2
      (by simp [List.length_range]; omega) (by simp [List.length_range])
    simp only [Except.map]
    simp only [Graph.addNode] at hE hR ⊢
    rw [List.length_range] at hE hR
    rw [hE, hR]
    simp [countEntrantNodes, countRoundNodes]
    omega

/-- Witness for `C4_entrant_and_round_counts` at a concrete three-entrant
list. -/
theorem C4_witness :
    1 ≤ ([7, 8, 9] : List Nat).length ∧
    (Tournament.new (M := String) [7, 8, 9]).map
      (fun t => (countEntrantNodes t.graph, countRoundNodes t.graph)) =
    .ok (3, 2) :=
  ⟨by decide, C4_entrant_and_round_counts [7, 8, 9] (by decide)⟩

/-! ### Invariant infrastructure for the frame property of solving -/

/-- `GraphLE` is reflexive. -/
theorem GraphLE_refl (g : Graph (TournamentNode M)) : GraphLE g g :=
  ⟨rfl, rfl, fun _ => Or.inl rfl⟩

/-- `GraphLE` is transitive. -/
theorem GraphLE_trans {g g' g'' : Graph (TournamentNode M)}
    (h1 : GraphLE g g') (h2 : GraphLE g' g'') : GraphLE g g'' := by
  obtain ⟨he1, hl1, hn1⟩ := h1
  obtain ⟨he2, hl2, hn2⟩ := h2
  refine ⟨he2.trans he1, hl2.trans hl1, fun n => ?_⟩
  rcases hn2 n with h2n | ⟨h2i, r2, m2, h2c⟩
  · rcases hn1 n with h1n | ⟨h1i, r1, m1, h1c⟩
    · exact Or.inl (h2n.trans h1n)
    · exact Or.inr ⟨h1i, r1, m1, h2n.trans h1c⟩
  · rcases hn1 n with h1n | ⟨h1i, r1, m1, h1c⟩
    · exact Or.inr ⟨h1n.symm.trans h2i, r2, m2, h2c⟩
    · rw [h1c] at h2i
      exact absurd h2i (by simp)

/-- Out-edges only depend on the edge list. -/
theorem outEdges_congr {g g' : Graph N} (h : g'.edges = g.edges) (id : Nat) :
    g'.outEdges id = g.outEdges id := by
  unfold Graph.outEdges
  rw [h]

/-- Out-neighbors only depend on the edge list. -/
theorem outNeighbors_congr {g g' : Graph N} (h : g'.edges = g.edges) (id : Nat) :
    g'.outNeighbors id = g.outNeighbors id := by
  unfold Graph.outNeighbors
  rw [outEdges_congr h]

/-- `_child_node` only depends on the edge list. -/
theorem childNodeG_congr {g g' : Graph N} (h : g'.edges = g.edges) (id : Nat)
    (t : TournamentEdge) : childNodeG g' id t = childNodeG g id t := by
  unfold childNodeG
  rw [outEdges_congr h]

/-- `Entrant` node values survive `GraphLE`. -/
theorem GraphLE_entrant {g g' : Graph (TournamentNode M)} {n e : Nat}
    (h : GraphLE g g') (he : g.nodes[n]? = some (.Entrant e)) :
    g'.nodes[n]? = some (.Entrant e) := by
  rcases h.2.2 n with hn | ⟨hi, _, _, _⟩
  · rw [hn, he]
  · rw [he] at hi
    exact absurd hi (by simp)

/-- `Complete` round values survive `GraphLE`. -/
theorem GraphLE_complete {g g' : Graph (TournamentNode M)} {n : Nat}
    {r : TournamentRoundResult} {m : M}
    (h : GraphLE g g') (he : g.nodes[n]? = some (.Round (.Complete r m))) :
    g'.nodes[n]? = some (.Round (.Complete r m)) := by
  rcases h.2.2 n with hn | ⟨hi, _, _, _⟩
  · rw [hn, he]
  · rw [he] at hi
    exact absurd hi (by simp)

/-- `Round`-ness of a node survives `GraphLE`. -/
theorem GraphLE_round {g g' : Graph (TournamentNode M)} {n : Nat}
    {rd : TournamentRound M}
    (h : GraphLE g g') (he : g.nodes[n]? = some (.Round rd)) :
    ∃ rd', g'.nodes[n]? = some (.Round rd') := by
  rcases h.2.2 n with hn | ⟨_, r, m, hc⟩
  · exact ⟨rd, by rw [hn, he]⟩
  · exact ⟨.Complete r m, hc⟩

/-- Being an entrant leaf is invariant under `GraphLE`. -/
theorem isEntrantNode_GraphLE {g g' : Graph (TournamentNode M)}
    (h : GraphLE g g') (n : Nat) :
    isEntrantNode g' n = isEntrantNode g n := by
  unfold isEntrantNode
  match hg : g.nodes[n]? with
  | none =>
    rcases h.2.2 n with hn | ⟨hi, _, _, _⟩
    · rw [hn, hg]
    · rw [hg] at hi
      exact absurd hi (by simp)
  | some (.Entrant e) => rw [GraphLE_entrant h hg]
  | some (.Round rd) =>
    obtain ⟨rd', hrd'⟩ := GraphLE_round h hg
    rw [hrd']

/-- `EdgesIncrease` survives any step that keeps the edge list. -/
theorem EdgesIncrease_congr {g g' : Graph N} (h : g'.edges = g.edges)
    (hE : EdgesIncrease g) : EdgesIncrease g' := by
  intro e he
  exact hE e (h ▸ he)

/-- `LeafNoChildren` survives `GraphLE`. -/
theorem LeafNoChildren_GraphLE {g g' : Graph (TournamentNode M)}
    (h : GraphLE g g') (hL : LeafNoChildren g) : LeafNoChildren g' := by
  intro e he
  rw [isEntrantNode_GraphLE h]
  exact hL e (h.1 ▸ he)

/-- Unfolding `_winner` at a missing node. -/
theorem winnerF_none {g : Graph (TournamentNode M)} {id f : Nat}
    (h : g.nodes[id]? = none) :
    winnerF (f + 1) g id = .error (.RoundNotFound id) := by
  rw [winnerF, h]

/-- Unfolding `_winner` at an entrant leaf. -/
theorem winnerF_entrant {g : Graph (TournamentNode M)} {id e f : Nat}
    (h : g.nodes[id]? = some (.Entrant e)) :
    winnerF (f + 1) g id = .ok (some e) := by
  rw [winnerF, h]

/-- Unfolding `_winner` at an incomplete round. -/
theorem winnerF_incomplete {g : Graph (TournamentNode M)} {id f : Nat}
    (h : g.nodes[id]? = some (.Round .Incomplete)) :
    winnerF (f + 1) g id = .ok none := by
  rw [winnerF, h]

/-- Unfolding `_winner` at a complete round. -/
theorem winnerF_complete {g : Graph (TournamentNode M)} {id f : Nat}
    {r : TournamentRoundResult} {m : M}
    (h : g.nodes[id]? = some (.Round (.Complete r m))) :
    winnerF (f + 1) g id = match childNodeG g id r.toEdge with
      | .error e => .error e
      | .ok c => winnerF f g c := by
  rw [winnerF, h]

/-- A determined winner survives `GraphLE` (with the same fuel). -/
theorem winnerF_GraphLE {g g' : Graph (TournamentNode M)}
    (hle : GraphLE g g') :
    ∀ f id w, winnerF f g id = .ok (some w) → winnerF f g' id = .ok (some w) := by
  intro f
  induction f with
  | zero => intro id w h; simp [winnerF] at h
  | succ f ih =>
    intro id w h
    match hg : g.nodes[id]? with
    | none =>
      rw [winnerF_none hg] at h
      exact absurd h (by simp)
    | some (.Entrant e) =>
      rw [winnerF_entrant hg] at h
      rw [winnerF_entrant (GraphLE_entrant hle hg)]
      exact h
    | some (.Round .Incomplete) =>
      rw [winnerF_incomplete hg] at h
      exact absurd h (by simp)
    | some (.Round (.Complete r m)) =>
      rw [winnerF_complete hg] at h
      rw [winnerF_complete (GraphLE_complete hle hg)]
      rw [childNodeG_congr hle.1]
      match hc : childNodeG g id r.toEdge with
      | .error e =>
        rw [hc] at h
        exact absurd h (by simp)
      | .ok c =>
        rw [hc] at h
        exact ih c w h

/-- A determined winner survives `GraphLE` (public fuel). -/
theorem winnerG_GraphLE {g g' : Graph (TournamentNode M)} {id w : Nat}
    (hle : GraphLE g g') (h : winnerG g id = .ok (some w)) :
    winnerG g' id = .ok (some w) := by
  unfold winnerG at h ⊢
  rw [hle.2.1]
  exact winnerF_GraphLE hle _ id w h

/-- `setNode` keeps the edge list. -/
theorem setNode_edges (g : Graph N) (id : Nat) (w : N) :
    (g.setNode id w).edges = g.edges := rfl

/-- `setNode` keeps the node count. -/
theorem setNode_length (g : Graph N) (id : Nat) (w : N) :
    (g.setNode id w).nodes.length = g.nodes.length :=
  List.length_set g.nodes id w

/-- `setNode` stores the new value at an in-range index. -/
theorem setNode_get_self {g : Graph N} {id : Nat} {w0 : N}
    (h : g.nodes[id]? = some w0) (w : N) :
    (g.setNode id w).nodes[id]? = some w :=
  List.getElem?_set_eq_of_lt _ (get?_some_lt h)

/-- `setNode` leaves other indices alone. -/
theorem setNode_get_ne {g : Graph N} {id n : Nat} (h : id ≠ n) (w : N) :
    (g.setNode id w).nodes[n]? = g.nodes[n]? :=
  List.getElem?_set_ne h

/-- Completing an incomplete round is a `GraphLE` step. -/
theorem GraphLE_setNode {g : Graph (TournamentNode M)} {id : Nat}
    (h : g.nodes[id]? = some (.Round .Incomplete))
    (r : TournamentRoundResult) (m : M) :
    GraphLE g (g.setNode id (.Round (.Complete r m))) := by
  refine ⟨rfl, setNode_length g id _, fun n => ?_⟩
  by_cases hn : id = n
  · subst hn
    exact Or.inr ⟨h, r, m, setNode_get_self h _⟩
  · exact Or.inl (setNode_get_ne hn _)

/-- Setting an index to its current value is the identity. -/
theorem list_set_same {l : List α} {i : Nat} {a : α} (h : l[i]? = some a) :
    l.set i a = l := by
  apply List.ext_getElem?
  intro n
  by_cases hn : i = n
  · subst hn
    rw [List.getElem?_set_eq_of_lt _ (get?_some_lt h)]
    exact h.symm
  · exact List.getElem?_set_ne hn

/-- `setNode` with the stored value is the identity. -/
theorem setNode_same {g : Graph N} {id : Nat} {w : N}
    (h : g.nodes[id]? = some w) :
    g.setNode id w = g := by
  unfold Graph.setNode
  cases g with
  | mk ns es =>
    simp only [Graph.mk.injEq, and_true]
    exact list_set_same h

/-- Every out-neighbor comes from an edge with the node as source. -/
theorem outNeighbors_mem_edge {g : Graph N} {id x : Nat}
    (h : x ∈ g.outNeighbors id) : ∃ w, (id, x, w) ∈ g.edges := by
  unfold Graph.outNeighbors Graph.outEdges at h
  simp only [List.mem_map, List.mem_reverse, List.mem_filter] at h
  obtain ⟨⟨t, w⟩, ⟨e, ⟨hmem, hsrc⟩, hpr⟩, hx⟩ := h
  refine ⟨w, ?_⟩
  have hsrc' : e.1 = id := by simpa using hsrc
  obtain ⟨h1, h2⟩ := Prod.mk.injEq .. ▸ hpr
  have : e = (id, x, w) := by
    obtain ⟨e1, e2, e3⟩ := e
    simp only at hsrc' h1 h2
    simp only at hx
    subst hsrc' h1
    rw [Prod.mk.injEq, Prod.mk.injEq]
    exact ⟨rfl, hx ▸ rfl, h2⟩
  exact this ▸ hmem

/-- With increasing edges, out-neighbors have strictly larger indices. -/
theorem src_lt_of_mem_outNeighbors {g : Graph N} {id x : Nat}
    (hE : EdgesIncrease g) (h : x ∈ g.outNeighbors id) : id < x := by
  obtain ⟨w, hw⟩ := outNeighbors_mem_edge h
  exact hE _ hw

/-- A node with an out-neighbor is not an entrant leaf
(under `LeafNoChildren`). -/
theorem not_entrant_of_outNeighbors {g : Graph (TournamentNode M)}
    {id x : Nat} (hL : LeafNoChildren g) (h : x ∈ g.outNeighbors id) :
    ∀ e, g.nodes[id]? ≠ some (.Entrant e) := by
  obtain ⟨w, hw⟩ := outNeighbors_mem_edge h
  have hfalse := hL _ hw
  intro e he
  unfold isEntrantNode at hfalse
  rw [he] at hfalse
  simp at hfalse

/-- A present node with an out-neighbor is a round (under
`LeafNoChildren`). -/
theorem round_at_of_outNeighbors {g : Graph (TournamentNode M)}
    {id x : Nat} {w0 : TournamentNode M} (hL : LeafNoChildren g)
    (h : x ∈ g.outNeighbors id) (hs : g.nodes[id]? = some w0) :
    ∃ rd, g.nodes[id]? = some (.Round rd) := by
  match w0, hs with
  | .Entrant e, hs => exact absurd hs (not_entrant_of_outNeighbors hL h e)
  | .Round rd, hs => exact ⟨rd, hs⟩

/-- `combatants` via the first two out-neighbors. -/
theorem combatants_eq {g : Graph (TournamentNode M)} {id a b : Nat}
    {rest : List Nat} (hn : g.outNeighbors id = a :: b :: rest) :
    combatants g id = combatantsAux g a b := by
  unfold combatants
  rw [hn]

/-- `combatantsAux` at two entrant leaves. -/
theorem combatantsAux_EE {g : Graph (TournamentNode M)} {a b ia ib : Nat}
    (ha : g.nodes[a]? = some (.Entrant ia))
    (hb : g.nodes[b]? = some (.Entrant ib)) :
    combatantsAux g a b = some (ia, ib) := by
  simp [combatantsAux, ha, hb]

/-- `combatantsAux` at a bye on side `a`. -/
theorem combatantsAux_byeA {g : Graph (TournamentNode M)} {a b bye w : Nat}
    {rd : TournamentRound M}
    (ha : g.nodes[a]? = some (.Entrant bye))
    (hb : g.nodes[b]? = some (.Round rd))
    (hw : winnerG g b = .ok (some w)) :
    combatantsAux g a b = some (bye, w) := by
  simp [combatantsAux, ha, hb, hw]

/-- `combatantsAux` at a bye on side `b`. -/
theorem combatantsAux_byeB {g : Graph (TournamentNode M)} {a b bye w : Nat}
    {rd : TournamentRound M}
    (ha : g.nodes[a]? = some (.Round rd))
    (hb : g.nodes[b]? = some (.Entrant bye))
    (hw : winnerG g a = .ok (some w)) :
    combatantsAux g a b = some (w, bye) := by
  simp [combatantsAux, ha, hb, hw]

/-- `combatantsAux` at two rounds. -/
theorem combatantsAux_RR {g : Graph (TournamentNode M)} {a b wa wb : Nat}
    {rda rdb : TournamentRound M}
    (ha : g.nodes[a]? = some (.Round rda))
    (hb : g.nodes[b]? = some (.Round rdb))
    (hwa : winnerG g a = .ok (some wa))
    (hwb : winnerG g b = .ok (some wb)) :
    combatantsAux g a b = some (wa, wb) := by
  simp [combatantsAux, ha, hb, hwa, hwb]

/-- A determined combatant pair survives `GraphLE`. -/
theorem combatantsAux_GraphLE {g g' : Graph (TournamentNode M)} {a b : Nat}
    {p : Nat × Nat} (hle : GraphLE g g')
    (h : combatantsAux g a b = some p) : combatantsAux g' a b = some p := by
  unfold combatantsAux at h
  split at h
  · -- Entrant, Entrant
    rename_i ia ib ha hb
    rw [combatantsAux_EE (GraphLE_entrant hle ha) (GraphLE_entrant hle hb)]
    exact h
  · -- Entrant, Round
    rename_i bye rd ha hb
    split at h
    · rename_i w hw
      obtain ⟨rd', hb'⟩ := GraphLE_round hle hb
      rw [combatantsAux_byeA (GraphLE_entrant hle ha) hb'
        (winnerG_GraphLE hle hw)]
      exact h
    · exact absurd h (by simp)
  · -- Round, Entrant
    rename_i rd bye ha hb
    split at h
    · rename_i w hw
      obtain ⟨rd', ha'⟩ := GraphLE_round hle ha
      rw [combatantsAux_byeB ha' (GraphLE_entrant hle hb)
        (winnerG_GraphLE hle hw)]
      exact h
    · exact absurd h (by simp)
  · -- Round, Round
    rename_i rda rdb ha hb
    split at h
    · rename_i wa wb hwa hwb
      obtain ⟨rda', ha'⟩ := GraphLE_round hle ha
      obtain ⟨rdb', hb'⟩ := GraphLE_round hle hb
      rw [combatantsAux_RR ha' hb' (winnerG_GraphLE hle hwa)
        (winnerG_GraphLE hle hwb)]
      exact h
    · exact absurd h (by simp)
  · exact absurd h (by simp)

/-- A determined combatant pair at a node survives `GraphLE`. -/
theorem combatants_GraphLE {g g' : Graph (TournamentNode M)} {id : Nat}
    {p : Nat × Nat} (hle : GraphLE g g')
    (h : combatants g id = some p) : combatants g' id = some p := by
  unfold combatants at h ⊢
  rw [outNeighbors_congr hle.1]
  split at h
  · exact combatantsAux_GraphLE hle h
  · exact absurd h (by simp)

/-- Introduction rule for `consistentAt` at a complete round. -/
theorem consistentAt_intro {bs : BattleSystem E M} {entrants : List E}
    {g : Graph (TournamentNode M)} {n ia ib : Nat} {ea eb : E}
    {r : TournamentRoundResult} {m : M}
    (hc : g.nodes[n]? = some (.Round (.Complete r m)))
    (hcb : combatants g n = some (ia, ib))
    (hia : entrants[ia]? = some ea) (hib : entrants[ib]? = some eb)
    (ho : (r, m) = roundOutcome bs ea eb) :
    consistentAt bs entrants g n := by
  unfold consistentAt
  simp only [hc, hcb, hia, hib]
  exact ho

/-- `consistentAt` holds trivially away from complete rounds. -/
theorem consistentAt_not_complete {bs : BattleSystem E M} {entrants : List E}
    {g : Graph (TournamentNode M)} {n : Nat}
    (h : ∀ r m, g.nodes[n]? ≠ some (.Round (.Complete r m))) :
    consistentAt bs entrants g n := by
  unfold consistentAt
  split
  · rename_i r m heq
    exact absurd heq (h r m)
  · trivial

/-- Elimination rule for `consistentAt` at a complete round. -/
theorem consistentAt_elim {bs : BattleSystem E M} {entrants : List E}
    {g : Graph (TournamentNode M)} {n : Nat}
    {r : TournamentRoundResult} {m : M}
    (h : consistentAt bs entrants g n)
    (hc : g.nodes[n]? = some (.Round (.Complete r m))) :
    ∃ ia ib ea eb, combatants g n = some (ia, ib) ∧
      entrants[ia]? = some ea ∧ entrants[ib]? = some eb ∧
      (r, m) = roundOutcome bs ea eb := by
  unfold consistentAt at h
  simp only [hc] at h
  split at h
  · rename_i ia ib hcb
    split at h
    · rename_i ea eb hia hib
      exact ⟨ia, ib, ea, eb, hcb, hia, hib, h⟩
    · exact h.elim
  · exact h.elim

/-- `consistentAt` transfers along `GraphLE` at value-unchanged nodes. -/
theorem consistentAt_stable {bs : BattleSystem E M} {entrants : List E}
    {g g' : Graph (TournamentNode M)} {n : Nat} (hle : GraphLE g g')
    (hval : g'.nodes[n]? = g.nodes[n]?)
    (h : consistentAt bs entrants g n) : consistentAt bs entrants g' n := by
  match hg : g.nodes[n]? with
  | some (.Round (.Complete r m)) =>
    obtain ⟨ia, ib, ea, eb, hcb, hia, hib, ho⟩ := consistentAt_elim h hg
    exact consistentAt_intro (hval.trans hg) (combatants_GraphLE hle hcb)
      hia hib ho
  | none =>
    exact consistentAt_not_complete (fun r m hcc => by
      rw [hval, hg] at hcc; exact Option.noConfusion hcc)
  | some (.Entrant e) =>
    exact consistentAt_not_complete (fun r m hcc => by
      rw [hval, hg] at hcc; simp at hcc)
  | some (.Round .Incomplete) =>
    exact consistentAt_not_complete (fun r m hcc => by
      rw [hval, hg] at hcc; simp at hcc)

/-- Main frame/consistency lemma for the solver: on a graph with increasing
edges, no children under entrant leaves, and consistent complete rounds,
a successful `solve_rec` only evolves the graph along `GraphLE` (identical
topology; node payloads unchanged or promoted `Incomplete` → `Complete`) and
preserves consistency.  In particular, a node that was already `Complete` is
rewritten with its *identical* stored value (the consistency hypothesis forces
the recomputed outcome to coincide), so every actual value change is an
`Incomplete` → `Complete` promotion.  This is a property of the pure
battle-system model only: the Rust trait's effectful policies (mutating or
random ones) break consistency between calls, and re-solving then overwrites
`Complete` rounds with different values — see `solve_rec_frame` for the
policy-independent frame property. -/
theorem solve_rec_spec (bs : BattleSystem E M) :
    ∀ (fuel : Nat) (entrants : List E) (g : Graph (TournamentNode M)) (id : Nat)
      (g' : Graph (TournamentNode M)) (r : TournamentRoundResult) (c : Nat)
      (ea eb : E),
    EdgesIncrease g → LeafNoChildren g → Consistent bs entrants g →
    solve_rec bs fuel entrants g id = .ok (g', r, c, ea, eb) →
    GraphLE g g' ∧ Consistent bs entrants g' := by
  intro fuel
  induction fuel with
  | zero =>
    intro entrants g id g' r c ea eb _ _ _ h
    simp [solve_rec] at h
  | succ fuel ih =>
    intro entrants g id g' r c ea eb hE hL hC h
    rw [solve_rec] at h
    split at h
    · exact absurd h (by simp)
    · exact absurd h (by simp)
    · rename_i a b rest hn
      have hmemA : a ∈ g.outNeighbors id := by
        rw [hn]; exact List.mem_cons_self _ _
      have hmemB : b ∈ g.outNeighbors id := by
        rw [hn]; exact List.mem_cons_of_mem _ (List.mem_cons_self _ _)
      have hneA : id ≠ a := Nat.ne_of_lt (src_lt_of_mem_outNeighbors hE hmemA)
      have hneB : id ≠ b := Nat.ne_of_lt (src_lt_of_mem_outNeighbors hE hmemB)
      split at h
      · -- Entrant, Entrant
        rename_i id_a id_b hA hB
        split at h
        · exact absurd h (by simp)
        · rename_i arc_a ha
          split at h
          · exact absurd h (by simp)
          · rename_i arc_b hb
            obtain ⟨hg', hr, hcnt, hea, heb, w0, hw0⟩ := finishRound_ok h
            obtain ⟨rd, hrd⟩ := round_at_of_outNeighbors hL hmemA hw0
            match rd, hrd with
            | .Incomplete, hrd =>
              have hle := GraphLE_setNode hrd
                (roundOutcome bs arc_a arc_b).1 (roundOutcome bs arc_a arc_b).2
              rw [hg']
              refine ⟨hle, ?_⟩
              intro n hn'
              rw [setNode_length] at hn'
              by_cases hni : n = id
              · subst hni
                refine consistentAt_intro (setNode_get_self hw0 _) ?_ ha hb rfl
                have hnS : (g.setNode n (.Round (.Complete
                    (roundOutcome bs arc_a arc_b).1
                    (roundOutcome bs arc_a arc_b).2))).outNeighbors n =
                    a :: b :: rest := hn
                rw [combatants_eq hnS]
                exact combatantsAux_EE ((setNode_get_ne hneA _).trans hA)
                  ((setNode_get_ne hneB _).trans hB)
              · have hval := setNode_get_ne (g := g)
                  (show id ≠ n from fun hh => hni hh.symm)
                  (TournamentNode.Round (.Complete
                    (roundOutcome bs arc_a arc_b).1
                    (roundOutcome bs arc_a arc_b).2))
                exact consistentAt_stable hle hval (hC n hn')
            | .Complete r0 m0, hrd =>
              obtain ⟨ja, jb, ea0, eb0, hcb, hja, hjb, hout⟩ :=
                consistentAt_elim (hC id (get?_some_lt hrd)) hrd
              have hcb2 : combatants g id = some (id_a, id_b) := by
                rw [combatants_eq hn]
                exact combatantsAux_EE hA hB
              rw [hcb2] at hcb
              obtain ⟨hja', hjb'⟩ : id_a = ja ∧ id_b = jb := by simpa using hcb
              subst hja'
              subst hjb'
              rw [ha] at hja
              rw [hb] at hjb
              obtain rfl : arc_a = ea0 := by simpa using hja
              obtain rfl : arc_b = eb0 := by simpa using hjb
              have hvals : (TournamentNode.Round (.Complete
                  (roundOutcome bs arc_a arc_b).1
                  (roundOutcome bs arc_a arc_b).2) : TournamentNode M) =
                  .Round (.Complete r0 m0) := by
                rw [← hout]
              rw [hg', hvals, setNode_same hrd]
              exact ⟨GraphLE_refl g, hC⟩
      · -- Entrant (bye), Round: do_bye!(ent_bye, b, A)
        rename_i ent_bye rdB hA hB
        split at h
        · exact absurd h (by simp)
        · rename_i w0 hw0
          split at h
          · exact absurd h (by simp)
          · rename_i g1 r1 c1 px py hrec
            split at h
            · exact absurd h (by simp)
            · exact absurd h (by simp)
            · rename_i w1 hw1
              try dsimp only at h
              split at h
              · exact absurd h (by simp)
              · rename_i arc_bye hbye
                split at h
                · exact absurd h (by simp)
                · rename_i arc_round hrnd
                  obtain ⟨hle1, hC1⟩ :=
                    ih entrants g b g1 r1 c1 px py hE hL hC hrec
                  have hL1 := LeafNoChildren_GraphLE hle1 hL
                  have hwin1 : winnerG g1 b = .ok (some (w0.getD w1)) := by
                    match w0, hw0 with
                    | some wr, hw0 =>
                      have hst := winnerG_GraphLE hle1 hw0
                      obtain rfl : wr = w1 := by
                        simpa using hst.symm.trans hw1
                      simpa using hw1
                    | none, hw0 => simpa using hw1
                  obtain ⟨hg', hr, hcnt, hea, heb, w0n, hw0n⟩ := finishRound_ok h
                  have hmemA1 : a ∈ g1.outNeighbors id := by
                    rw [outNeighbors_congr hle1.1]; exact hmemA
                  obtain ⟨rd1, hrd1⟩ :=
                    round_at_of_outNeighbors hL1 hmemA1 hw0n
                  match rd1, hrd1 with
                  | .Incomplete, hrd1 =>
                    have hle2 := GraphLE_setNode hrd1
                      (roundOutcome bs arc_bye arc_round).1
                      (roundOutcome bs arc_bye arc_round).2
                    have hleT := GraphLE_trans hle1 hle2
                    rw [hg']
                    refine ⟨hleT, ?_⟩
                    intro n hn'
                    rw [setNode_length] at hn'
                    by_cases hni : n = id
                    · subst hni
                      refine consistentAt_intro (setNode_get_self hw0n _) ?_
                        hbye hrnd rfl
                      have hnS : (g1.setNode n (.Round (.Complete
                          (roundOutcome bs arc_bye arc_round).1
                          (roundOutcome bs arc_bye arc_round).2))).outNeighbors
                          n = a :: b :: rest := by
                        rw [outNeighbors_congr (setNode_edges g1 n _)]
                        rw [outNeighbors_congr hle1.1]
                        exact hn
                      rw [combatants_eq hnS]
                      obtain ⟨rdb1, hb1⟩ := GraphLE_round hle1 hB
                      exact combatantsAux_byeA
                        ((setNode_get_ne hneA _).trans
                          (GraphLE_entrant hle1 hA))
                        ((setNode_get_ne hneB _).trans hb1)
                        (winnerG_GraphLE hle2 hwin1)
                    · have hval := setNode_get_ne (g := g1)
                        (show id ≠ n from fun hh => hni hh.symm)
                        (TournamentNode.Round (.Complete
                          (roundOutcome bs arc_bye arc_round).1
                          (roundOutcome bs arc_bye arc_round).2))
                      exact consistentAt_stable hle2 hval (hC1 n hn')
                  | .Complete r0 m0, hrd1 =>
                    obtain ⟨ja, jb, ea0, eb0, hcb, hja, hjb, hout⟩ :=
                      consistentAt_elim (hC1 id (get?_some_lt hrd1)) hrd1
                    have hcb2 : combatants g1 id = some (ent_bye, w0.getD w1) := by
                      rw [combatants_eq (show g1.outNeighbors id =
                        a :: b :: rest by
                          rw [outNeighbors_congr hle1.1]; exact hn)]
                      obtain ⟨rdb1, hb1⟩ := GraphLE_round hle1 hB
                      exact combatantsAux_byeA (GraphLE_entrant hle1 hA) hb1
                        hwin1
                    rw [hcb2] at hcb
                    obtain ⟨hja', hjb'⟩ : ent_bye = ja ∧ w0.getD w1 = jb := by
                      simpa using hcb
                    subst hja'
                    subst hjb'
                    rw [hbye] at hja
                    rw [hrnd] at hjb
                    obtain rfl : arc_bye = ea0 := by simpa using hja
                    obtain rfl : arc_round = eb0 := by simpa using hjb
                    have hvals : (TournamentNode.Round (.Complete
                        (roundOutcome bs arc_bye arc_round).1
                        (roundOutcome bs arc_bye arc_round).2) :
                        TournamentNode M) = .Round (.Complete r0 m0) := by
                      rw [← hout]
                    rw [hg', hvals, setNode_same hrd1]
                    exact ⟨hle1, hC1⟩
      · -- Round, Entrant (bye): do_bye!(ent_bye, a, B)
        rename_i rdA ent_bye hA hB
        split at h
        · exact absurd h (by simp)
        · rename_i w0 hw0
          split at h
          · exact absurd h (by simp)
          · rename_i g1 r1 c1 px py hrec
            split at h
            · exact absurd h (by simp)
            · exact absurd h (by simp)
            · rename_i w1 hw1
              try dsimp only at h
              split at h
              · exact absurd h (by simp)
              · rename_i arc_bye hbye
                split at h
                · exact absurd h (by simp)
                · rename_i arc_round hrnd
                  obtain ⟨hle1, hC1⟩ :=
                    ih entrants g a g1 r1 c1 px py hE hL hC hrec
                  have hL1 := LeafNoChildren_GraphLE hle1 hL
                  have hwin1 : winnerG g1 a = .ok (some (w0.getD w1)) := by
                    match w0, hw0 with
                    | some wr, hw0 =>
                      have hst := winnerG_GraphLE hle1 hw0
                      obtain rfl : wr = w1 := by
                        simpa using hst.symm.trans hw1
                      simpa using hw1
                    | none, hw0 => simpa using hw1
                  obtain ⟨hg', hr, hcnt, hea, heb, w0n, hw0n⟩ := finishRound_ok h
                  have hmemA1 : a ∈ g1.outNeighbors id := by
                    rw [outNeighbors_congr hle1.1]; exact hmemA
                  obtain ⟨rd1, hrd1⟩ :=
                    round_at_of_outNeighbors hL1 hmemA1 hw0n
                  match rd1, hrd1 with
                  | .Incomplete, hrd1 =>
                    have hle2 := GraphLE_setNode hrd1
                      (roundOutcome bs arc_round arc_bye).1
                      (roundOutcome bs arc_round arc_bye).2
                    have hleT := GraphLE_trans hle1 hle2
                    rw [hg']
                    refine ⟨hleT, ?_⟩
                    intro n hn'
                    rw [setNode_length] at hn'
                    by_cases hni : n = id
                    · subst hni
                      refine consistentAt_intro (setNode_get_self hw0n _) ?_
                        hrnd hbye rfl
                      have hnS : (g1.setNode n (.Round (.Complete
                          (roundOutcome bs arc_round arc_bye).1
                          (roundOutcome bs arc_round arc_bye).2))).outNeighbors
                          n = a :: b :: rest := by
                        rw [outNeighbors_congr (setNode_edges g1 n _)]
                        rw [outNeighbors_congr hle1.1]
                        exact hn
                      rw [combatants_eq hnS]
                      obtain ⟨rda1, ha1⟩ := GraphLE_round hle1 hA
                      exact combatantsAux_byeB
                        ((setNode_get_ne hneA _).trans ha1)
                        ((setNode_get_ne hneB _).trans
                          (GraphLE_entrant hle1 hB))
                        (winnerG_GraphLE hle2 hwin1)
                    · have hval := setNode_get_ne (g := g1)
                        (show id ≠ n from fun hh => hni hh.symm)
                        (TournamentNode.Round (.Complete
                          (roundOutcome bs arc_round arc_bye).1
                          (roundOutcome bs arc_round arc_bye).2))
                      exact consistentAt_stable hle2 hval (hC1 n hn')
                  | .Complete r0 m0, hrd1 =>
                    obtain ⟨ja, jb, ea0, eb0, hcb, hja, hjb, hout⟩ :=
                      consistentAt_elim (hC1 id (get?_some_lt hrd1)) hrd1
                    have hcb2 : combatants g1 id = some (w0.getD w1, ent_bye) := by
                      rw [combatants_eq (show g1.outNeighbors id =
                        a :: b :: rest by
                          rw [outNeighbors_congr hle1.1]; exact hn)]
                      obtain ⟨rda1, ha1⟩ := GraphLE_round hle1 hA
                      exact combatantsAux_byeB ha1 (GraphLE_entrant hle1 hB)
                        hwin1
                    rw [hcb2] at hcb
                    obtain ⟨hja', hjb'⟩ : w0.getD w1 = ja ∧ ent_bye = jb := by
                      simpa using hcb
                    subst hja'
                    subst hjb'
                    rw [hrnd] at hja
                    rw [hbye] at hjb
                    obtain rfl : arc_round = ea0 := by simpa using hja
                    obtain rfl : arc_bye = eb0 := by simpa using hjb
                    have hvals : (TournamentNode.Round (.Complete
                        (roundOutcome bs arc_round arc_bye).1
                        (roundOutcome bs arc_round arc_bye).2) :
                        TournamentNode M) = .Round (.Complete r0 m0) := by
                      rw [← hout]
                    rw [hg', hvals, setNode_same hrd1]
                    exact ⟨hle1, hC1⟩
      · -- Round, Round
        rename_i rdA rdB hA hB
        split at h
        · exact absurd h (by simp)
        · rename_i w0a hw0a
          split at h
          · exact absurd h (by simp)
          · rename_i g1 r1 c1 pxa pya hrecA
            split at h
            · exact absurd h (by simp)
            · exact absurd h (by simp)
            · rename_i w1a hw1a
              try dsimp only at h
              split at h
              · exact absurd h (by simp)
              · rename_i w0b hw0b
                split at h
                · exact absurd h (by simp)
                · rename_i g2 r2 c2 pxb pyb hrecB
                  split at h
                  · exact absurd h (by simp)
                  · exact absurd h (by simp)
                  · rename_i w1b hw1b
                    try dsimp only at h
                    split at h
                    · exact absurd h (by simp)
                    · rename_i arc_a hla
                      split at h
                      · exact absurd h (by simp)
                      · rename_i arc_b hlb
                        obtain ⟨hle1, hC1⟩ :=
                          ih entrants g a g1 r1 c1 pxa pya hE hL hC hrecA
                        have hE1 := EdgesIncrease_congr hle1.1 hE
                        have hL1 := LeafNoChildren_GraphLE hle1 hL
                        obtain ⟨hle2, hC2⟩ :=
                          ih entrants g1 b g2 r2 c2 pxb pyb hE1 hL1 hC1 hrecB
                        have hle12 := GraphLE_trans hle1 hle2
                        have hL2 := LeafNoChildren_GraphLE hle2 hL1
                        have hwinA1 : winnerG g1 a = .ok (some (w0a.getD w1a)) := by
                          match w0a, hw0a with
                          | some wr, hw0a =>
                            have hst := winnerG_GraphLE hle1 hw0a
                            obtain rfl : wr = w1a := by
                              simpa using hst.symm.trans hw1a
                            simpa using hw1a
                          | none, hw0a => simpa using hw1a
                        have hwinA2 : winnerG g2 a = .ok (some (w0a.getD w1a)) :=
                          winnerG_GraphLE hle2 hwinA1
                        have hwinB2 : winnerG g2 b = .ok (some (w0b.getD w1b)) := by
                          match w0b, hw0b with
                          | some wr, hw0b =>
                            have hst := winnerG_GraphLE hle2 hw0b
                            obtain rfl : wr = w1b := by
                              simpa using hst.symm.trans hw1b
                            simpa using hw1b
                          | none, hw0b => simpa using hw1b
                        obtain ⟨hg', hr, hcnt, hea, heb, w0n, hw0n⟩ :=
                          finishRound_ok h
                        have hmemA2 : a ∈ g2.outNeighbors id := by
                          rw [outNeighbors_congr hle12.1]; exact hmemA
                        obtain ⟨rd2, hrd2⟩ :=
                          round_at_of_outNeighbors hL2 hmemA2 hw0n
                        match rd2, hrd2 with
                        | .Incomplete, hrd2 =>
                          have hle3 := GraphLE_setNode hrd2
                            (roundOutcome bs arc_a arc_b).1
                            (roundOutcome bs arc_a arc_b).2
                          have hleT := GraphLE_trans hle12 hle3
                          rw [hg']
                          refine ⟨hleT, ?_⟩
                          intro n hn'
                          rw [setNode_length] at hn'
                          by_cases hni : n = id
                          · subst hni
                            refine consistentAt_intro (setNode_get_self hw0n _)
                              ?_ hla hlb rfl
                            have hnS : (g2.setNode n (.Round (.Complete
                                (roundOutcome bs arc_a arc_b).1
                                (roundOutcome bs arc_a arc_b).2))).outNeighbors
                                n = a :: b :: rest := by
                              rw [outNeighbors_congr (setNode_edges g2 n _)]
                              rw [outNeighbors_congr hle12.1]
                              exact hn
                            rw [combatants_eq hnS]
                            obtain ⟨rda2, ha2⟩ := GraphLE_round hle12 hA
                            obtain ⟨rdb2, hb2⟩ := GraphLE_round hle12 hB
                            exact combatantsAux_RR
                              ((setNode_get_ne hneA _).trans ha2)
                              ((setNode_get_ne hneB _).trans hb2)
                              (winnerG_GraphLE hle3 hwinA2)
                              (winnerG_GraphLE hle3 hwinB2)
                          · have hval := setNode_get_ne (g := g2)
                              (show id ≠ n from fun hh => hni hh.symm)
                              (TournamentNode.Round (.Complete
                                (roundOutcome bs arc_a arc_b).1
                                (roundOutcome bs arc_a arc_b).2))
                            exact consistentAt_stable hle3 hval (hC2 n hn')
                        | .Complete r0 m0, hrd2 =>
                          obtain ⟨ja, jb, ea0, eb0, hcb, hja, hjb, hout⟩ :=
                            consistentAt_elim (hC2 id (get?_some_lt hrd2)) hrd2
                          have hcb2 : combatants g2 id =
                              some (w0a.getD w1a, w0b.getD w1b) := by
                            rw [combatants_eq (show g2.outNeighbors id =
                              a :: b :: rest by
                                rw [outNeighbors_congr hle12.1]; exact hn)]
                            obtain ⟨rda2, ha2⟩ := GraphLE_round hle12 hA
                            obtain ⟨rdb2, hb2⟩ := GraphLE_round hle12 hB
                            exact combatantsAux_RR ha2 hb2 hwinA2 hwinB2
                          rw [hcb2] at hcb
                          obtain ⟨hja', hjb'⟩ :
                              w0a.getD w1a = ja ∧ w0b.getD w1b = jb := by
                            simpa using hcb
                          subst hja'
                          subst hjb'
                          rw [hla] at hja
                          rw [hlb] at hjb
                          obtain rfl : arc_a = ea0 := by simpa using hja
                          obtain rfl : arc_b = eb0 := by simpa using hjb
                          have hvals : (TournamentNode.Round (.Complete
                              (roundOutcome bs arc_a arc_b).1
                              (roundOutcome bs arc_a arc_b).2) :
                              TournamentNode M) = .Round (.Complete r0 m0) := by
                            rw [← hout]
                          rw [hg', hvals, setNode_same hrd2]
                          exact ⟨hle12, hC2⟩
      · -- node_weight panic cases
        exact absurd h (by simp)

/-- Append keeps every present entry. -/
theorem getElem?_append_some {l l' : List α} {n : Nat} {a : α}
    (h : l[n]? = some a) : (l ++ l')[n]? = some a := by
  rw [List.getElem?_append_left (get?_some_lt h)]
  exact h

/-- Structure of `add_layer`: it only appends nodes (all of them entrant
leaves or incomplete rounds) and edges (all increasing, with incomplete-round
sources), leaving the existing graph untouched. -/
theorem add_layer_shape :
    ∀ (fuel : Nat) (ids : List Nat) (g : Graph (TournamentNode M)) (p : Nat),
    p < g.nodes.length →
    (2 ≤ ids.length → g.nodes[p]? = some (.Round .Incomplete)) →
    ∃ ln le,
      (add_layer fuel g p ids).nodes = g.nodes ++ ln ∧
      (add_layer fuel g p ids).edges = g.edges ++ le ∧
      (∀ w ∈ ln, (∃ e, w = TournamentNode.Entrant e) ∨
        w = TournamentNode.Round .Incomplete) ∧
      (∀ e ∈ le, e.1 < e.2.1 ∧
        (add_layer fuel g p ids).nodes[e.1]? =
          some (TournamentNode.Round .Incomplete)) := by
  intro fuel
  induction fuel with
  | zero =>
    intro ids g p hp hpR
    exact ⟨[], [], by simp [add_layer], by simp [add_layer], by simp, by simp⟩
  | succ fuel ih =>
    intro ids g p hp hpR
    rw [add_layer]
    by_cases h3 : ids.length = 3
    · rw [if_pos h3]
      simp only [Graph.addNode, Graph.addEdge]
      set g3 : Graph (TournamentNode M) :=
        ⟨g.nodes ++ [.Round .Incomplete] ++ [.Entrant (ids.headD 0)],
         g.edges ++ [(p, g.nodes.length, .A)] ++
           [(p, (g.nodes ++ [TournamentNode.Round .Incomplete]).length, .B)]⟩
        with hg3
      obtain ⟨ln', le', hN, hEdg, hW, hEc⟩ := ih ids.tail g3 g.nodes.length
        (by simp [hg3])
        (by
          intro _
          show (g.nodes ++ [TournamentNode.Round .Incomplete] ++ _)[_]? = _
          rw [List.append_assoc, List.getElem?_append_right (Nat.le_refl _)]
          simp)
      refine ⟨[.Round .Incomplete, .Entrant (ids.headD 0)] ++ ln',
        [(p, g.nodes.length, .A),
         (p, g.nodes.length + 1, .B)] ++ le', ?_, ?_, ?_, ?_⟩
      · rw [hN]
        simp [hg3]
      · rw [hEdg]
        simp [hg3]
      · intro w hw
        simp only [List.mem_append, List.mem_cons, List.mem_singleton] at hw
        rcases hw with (rfl | rfl | hfalse) | hw
        · exact Or.inr rfl
        · exact Or.inl ⟨_, rfl⟩
        · exact absurd hfalse (by simp)
        · exact hW w hw
      · intro e he
        simp only [List.mem_append, List.mem_cons, List.mem_singleton] at he
        have hsrc : (add_layer fuel g3 g.nodes.length ids.tail).nodes[p]? =
            some (TournamentNode.Round .Incomplete) := by
          rw [hN, hg3]
          rw [List.append_assoc, List.append_assoc]
          rw [List.getElem?_append_left hp]
          exact hpR (by omega)
        rcases he with (rfl | rfl | hfalse) | he
        · exact ⟨by simp <;> omega, hsrc⟩
        · exact ⟨by simp <;> omega, hsrc⟩
        · exact absurd hfalse (by simp)
        · exact hEc e he
    · rw [if_neg h3]
      by_cases h2 : ids.length = 2
      · rw [if_pos h2]
        simp only [Graph.addNode, Graph.addEdge]
        refine ⟨[.Entrant (ids.headD 0), .Entrant (ids.getD 1 0)],
          [(p, g.nodes.length, .A),
           (p, (g.nodes ++ [TournamentNode.Entrant (ids.headD 0)]).length, .B)],
          ?_, ?_, ?_, ?_⟩
        · simp
        · simp
        · intro w hw
          simp only [List.mem_cons, List.mem_singleton] at hw
          rcases hw with rfl | rfl | hfalse
          · exact Or.inl ⟨_, rfl⟩
          · exact Or.inl ⟨_, rfl⟩
          · exact absurd hfalse (by simp)
        · intro e he
          have hsrc : (g.nodes ++ [TournamentNode.Entrant (ids.headD 0)] ++
              [TournamentNode.Entrant (ids.getD 1 0)])[p]? =
              some (TournamentNode.Round .Incomplete) := by
            rw [List.append_assoc, List.getElem?_append_left hp]
            exact hpR (by omega)
          simp only [List.mem_cons, List.mem_singleton] at he
          rcases he with rfl | rfl | hfalse
          · exact ⟨by simp <;> omega, hsrc⟩
          · exact ⟨by simp <;> omega, hsrc⟩
          · exact absurd hfalse (by simp)
      · rw [if_neg h2]
        by_cases h1 : ids.length ≤ 1
        · rw [if_pos h1]
          exact ⟨[], [], by simp, by simp, by simp, by simp⟩
        · rw [if_neg h1]
          simp only [Graph.addNode, Graph.addEdge]
          set g3 : Graph (TournamentNode M) :=
            ⟨g.nodes ++ [.Round .Incomplete] ++ [.Round .Incomplete],
             g.edges ++ [(p, g.nodes.length, .A)] ++
               [(p, (g.nodes ++ [TournamentNode.Round .Incomplete]).length, .B)]⟩
            with hg3
          obtain ⟨ln1, le1, hN1, hE1, hW1, hEc1⟩ :=
            ih (ids.take (ids.length / 2)) g3 g.nodes.length
              (by simp [hg3])
              (by
                intro _
                show (g.nodes ++ [TournamentNode.Round .Incomplete] ++ _)[_]? = _
                rw [List.append_assoc,
                  List.getElem?_append_right (Nat.le_refl _)]
                simp)
          obtain ⟨ln2, le2, hN2, hE2, hW2, hEc2⟩ :=
            ih (ids.drop (ids.length / 2))
              (add_layer fuel g3 g.nodes.length (ids.take (ids.length / 2)))
              ((g.nodes ++ [TournamentNode.Round .Incomplete]).length)
              (by
                rw [hN1, hg3]
                simp)
              (by
                intro _
                rw [hN1, hg3]
                rw [List.append_assoc]
                rw [List.getElem?_append_right (Nat.le_refl _)]
                simp)
          refine ⟨[.Round .Incomplete, .Round .Incomplete] ++ (ln1 ++ ln2),
            [(p, g.nodes.length, .A), (p, g.nodes.length + 1, .B)] ++
              (le1 ++ le2), ?_, ?_, ?_, ?_⟩
          · rw [hN2, hN1, hg3]
            simp
          · rw [hE2, hE1, hg3]
            simp
          · intro w hw
            simp only [List.mem_append, List.mem_cons, List.mem_singleton] at hw
            rcases hw with (rfl | rfl | hfalse) | hw | hw
            · exact Or.inr rfl
            · exact Or.inr rfl
            · exact absurd hfalse (by simp)
            · exact hW1 w hw
            · exact hW2 w hw
          · intro e he
            have hsrc : (add_layer fuel
                (add_layer fuel g3 g.nodes.length
                  (ids.take (ids.length / 2)))
                ((g.nodes ++ [TournamentNode.Round .Incomplete]).length)
                (ids.drop (ids.length / 2))).nodes[p]? =
                some (TournamentNode.Round .Incomplete) := by
              rw [hN2, hN1, hg3]
              rw [List.append_assoc, List.append_assoc, List.append_assoc]
              rw [List.getElem?_append_left hp]
              exact hpR (by omega)
            simp only [List.mem_append, List.mem_cons, List.mem_singleton] at he
            rcases he with (rfl | rfl | hfalse) | he | he
            · exact ⟨by simp <;> omega, hsrc⟩
            · exact ⟨by simp <;> omega, hsrc⟩
            · exact absurd hfalse (by simp)
            · obtain ⟨hlt, hval⟩ := hEc1 e he
              exact ⟨hlt, by rw [hN2]; exact getElem?_append_some hval⟩
            · exact hEc2 e he

/-- `Tournament.new` establishes the three solver invariants: increasing
edges, childless entrant leaves, and (vacuous — every round starts
`Incomplete`) consistency. -/
theorem new_invariants (bs : BattleSystem E M) (entrants : List E)
    (t : Tournament E M) (h : Tournament.new entrants = .ok t) :
    EdgesIncrease t.graph ∧ LeafNoChildren t.graph ∧
    Consistent bs t.entrants t.graph := by
  unfold Tournament.new at h
  split at h
  · exact absurd h (by simp)
  · rename_i hne
    by_cases h1 : entrants.length = 1
    · simp only [h1, if_pos rfl] at h
      obtain rfl : _ = t := by simpa using h
      have hg : (Tournament.mk
          (add_layer 1 ((⟨[], []⟩ : Graph (TournamentNode M)).addNode
            (.Entrant 0)).1 ((⟨[], []⟩ : Graph (TournamentNode M)).addNode
            (.Entrant 0)).2 (List.range 1)) entrants
          ((⟨[], []⟩ : Graph (TournamentNode M)).addNode
            (.Entrant 0)).2).graph =
          ⟨[TournamentNode.Entrant 0], []⟩ := rfl
      refine ⟨?_, ?_, ?_⟩
      · intro e he
        rw [hg] at he
        simp at he
      · intro e he
        rw [hg] at he
        simp at he
      · intro n hn
        apply consistentAt_not_complete
        intro r m hcc
        rw [hg] at hcc
        match n, hcc with
        | 0, hcc => simp at hcc
        | n + 1, hcc => simp at hcc
    · simp only [if_neg h1] at h
      obtain rfl : _ = t := by simpa using h
      obtain ⟨ln, le, hN, hE, hW, hEc⟩ := add_layer_shape (M := M)
        entrants.length (List.range entrants.length)
        ((⟨[], []⟩ : Graph (TournamentNode M)).addNode (.Round .Incomplete)).1
        ((⟨[], []⟩ : Graph (TournamentNode M)).addNode (.Round .Incomplete)).2
        (by simp [Graph.addNode])
        (by intro _; rfl)
      refine ⟨?_, ?_, ?_⟩
      · intro e he
        rw [hE] at he
        exact (hEc e (by simpa [Graph.addNode] using he)).1
      · intro e he
        rw [hE] at he
        obtain ⟨_, hv⟩ := hEc e (by simpa [Graph.addNode] using he)
        unfold isEntrantNode
        rw [hv]
      · intro n hn
        apply consistentAt_not_complete
        intro r m hcc
        rw [hN] at hcc
        have hmem := List.getElem?_mem hcc
        simp only [Graph.addNode, List.mem_append] at hmem
        rcases hmem with hmem | hmem
        · simp at hmem
        · rcases hW _ hmem with ⟨e, he⟩ | he
          · exact absurd he (by simp)
          · exact absurd he (by simp)

/-- `solve_round` preserves the three solver invariants (trivially so on
failure, where the tournament is unchanged). -/
theorem solve_round_invariants (bs : BattleSystem E M) (t : Tournament E M)
    (id : Nat) (hE : EdgesIncrease t.graph) (hL : LeafNoChildren t.graph)
    (hC : Consistent bs t.entrants t.graph) :
    EdgesIncrease (t.solve_round bs id).1.graph ∧
    LeafNoChildren (t.solve_round bs id).1.graph ∧
    Consistent bs (t.solve_round bs id).1.entrants
      (t.solve_round bs id).1.graph := by
  unfold Tournament.solve_round
  split
  · rename_i g1 r c ea eb heq
    obtain ⟨hle, hC1⟩ :=
      solve_rec_spec bs _ t.entrants t.graph id g1 r c ea eb hE hL hC heq
    exact ⟨EdgesIncrease_congr hle.1 hE, LeafNoChildren_GraphLE hle hL, hC1⟩
  · exact ⟨hE, hL, hC⟩

/-- `GraphLEW` is transitive. -/
theorem GraphLEW_trans {g g' g'' : Graph (TournamentNode M)}
    (h1 : GraphLEW g g') (h2 : GraphLEW g' g'') : GraphLEW g g'' := by
  obtain ⟨he1, hl1, hn1⟩ := h1
  obtain ⟨he2, hl2, hn2⟩ := h2
  refine ⟨he2.trans he1, hl2.trans hl1, fun n => ?_⟩
  rcases hn2 n with h2n | ⟨⟨rd2, h2i⟩, r2, m2, h2c⟩
  · rcases hn1 n with h1n | ⟨⟨rd1, h1i⟩, r1, m1, h1c⟩
    · exact Or.inl (h2n.trans h1n)
    · exact Or.inr ⟨⟨rd1, h1i⟩, r1, m1, h2n.trans h1c⟩
  · rcases hn1 n with h1n | ⟨⟨rd1, h1i⟩, r1, m1, h1c⟩
    · exact Or.inr ⟨⟨rd2, h1n.symm.trans h2i⟩, r2, m2, h2c⟩
    · exact Or.inr ⟨⟨rd1, h1i⟩, r2, m2, h2c⟩

/-- Overwriting any present round with a `Complete` round is a `GraphLEW`
step — regardless of whether the stored round was `Incomplete`. -/
theorem GraphLEW_setNode {g : Graph (TournamentNode M)} {id : Nat}
    {rd : TournamentRound M} (h : g.nodes[id]? = some (.Round rd))
    (r : TournamentRoundResult) (m : M) :
    GraphLEW g (g.setNode id (.Round (.Complete r m))) := by
  refine ⟨rfl, setNode_length g id _, fun n => ?_⟩
  by_cases hn : id = n
  · subst hn
    exact Or.inr ⟨⟨rd, h⟩, r, m, setNode_get_self h _⟩
  · exact Or.inl (setNode_get_ne hn _)

/-- `LeafNoChildren` survives `GraphLEW`. -/
theorem LeafNoChildren_GraphLEW {g g' : Graph (TournamentNode M)}
    (h : GraphLEW g g') (hL : LeafNoChildren g) : LeafNoChildren g' := by
  intro e he
  have hg := hL e (h.1 ▸ he)
  rcases h.2.2 e.1 with hn | ⟨_, r, m, hc⟩
  · unfold isEntrantNode at hg ⊢
    rw [hn]
    exact hg
  · unfold isEntrantNode
    rw [hc]

/-- Policy-independent frame property of the solver: on a graph whose
entrant leaves have no children, a successful `solve_rec` keeps the edge
list and the node count, and every node payload is either unchanged or is a
`Round` node that now stores some `Complete` round.  Unlike
`solve_rec_spec`, no consistency hypothesis is needed — but, equally,
nothing prevents the freshly stored `Complete` value from differing from a
previously stored one. -/
theorem solve_rec_frame (bs : BattleSystem E M) :
    ∀ (fuel : Nat) (entrants : List E) (g : Graph (TournamentNode M)) (id : Nat)
      (g' : Graph (TournamentNode M)) (r : TournamentRoundResult) (c : Nat)
      (ea eb : E),
    LeafNoChildren g →
    solve_rec bs fuel entrants g id = .ok (g', r, c, ea, eb) →
    GraphLEW g g' := by
  intro fuel
  induction fuel with
  | zero =>
    intro entrants g id g' r c ea eb _ h
    simp [solve_rec] at h
  | succ fuel ih =>
    intro entrants g id g' r c ea eb hL h
    rw [solve_rec] at h
    split at h
    · exact absurd h (by simp)
    · exact absurd h (by simp)
    · rename_i a b rest hn
      have hmemA : a ∈ g.outNeighbors id := by
        rw [hn]; exact List.mem_cons_self _ _
      split at h
      · -- Entrant, Entrant
        rename_i id_a id_b hA hB
        split at h
        · exact absurd h (by simp)
        · rename_i arc_a ha
          split at h
          · exact absurd h (by simp)
          · rename_i arc_b hb
            obtain ⟨hg', hr, hcnt, hea, heb, w0, hw0⟩ := finishRound_ok h
            obtain ⟨rd, hrd⟩ := round_at_of_outNeighbors hL hmemA hw0
            rw [hg']
            exact GraphLEW_setNode hrd _ _
      · -- Entrant (bye), Round: do_bye!(ent_bye, b, A)
        rename_i ent_bye rdB hA hB
        split at h
        · exact absurd h (by simp)
        · rename_i w0 hw0
          split at h
          · exact absurd h (by simp)
          · rename_i g1 r1 c1 px py hrec
            split at h
            · exact absurd h (by simp)
            · exact absurd h (by simp)
            · rename_i w1 hw1
              try dsimp only at h
              split at h
              · exact absurd h (by simp)
              · rename_i arc_bye hbye
                split at h
                · exact absurd h (by simp)
                · rename_i arc_round hrnd
                  have hle1 := ih entrants g b g1 r1 c1 px py hL hrec
                  have hL1 := LeafNoChildren_GraphLEW hle1 hL
                  obtain ⟨hg', hr, hcnt, hea, heb, w0n, hw0n⟩ := finishRound_ok h
                  have hmemA1 : a ∈ g1.outNeighbors id := by
                    rw [outNeighbors_congr hle1.1]; exact hmemA
                  obtain ⟨rd1, hrd1⟩ :=
                    round_at_of_outNeighbors hL1 hmemA1 hw0n
                  rw [hg']
                  exact GraphLEW_trans hle1 (GraphLEW_setNode hrd1 _ _)
      · -- Round, Entrant (bye): do_bye!(ent_bye, a, B)
        rename_i rdA ent_bye hA hB
        split at h
        · exact absurd h (by simp)
        · rename_i w0 hw0
          split at h
          · exact absurd h (by simp)
          · rename_i g1 r1 c1 px py hrec
            split at h
            · exact absurd h (by simp)
            · exact absurd h (by simp)
            · rename_i w1 hw1
              try dsimp only at h
              split at h
              · exact absurd h (by simp)
              · rename_i arc_bye hbye
                split at h
                · exact absurd h (by simp)
                · rename_i arc_round hrnd
                  have hle1 := ih entrants g a g1 r1 c1 px py hL hrec
                  have hL1 := LeafNoChildren_GraphLEW hle1 hL
                  obtain ⟨hg', hr, hcnt, hea, heb, w0n, hw0n⟩ := finishRound_ok h
                  have hmemA1 : a ∈ g1.outNeighbors id := by
                    rw [outNeighbors_congr hle1.1]; exact hmemA
                  obtain ⟨rd1, hrd1⟩ :=
                    round_at_of_outNeighbors hL1 hmemA1 hw0n
                  rw [hg']
                  exact GraphLEW_trans hle1 (GraphLEW_setNode hrd1 _ _)
      · -- Round, Round
        rename_i rdA rdB hA hB
        split at h
        · exact absurd h (by simp)
        · rename_i w0a hw0a
          split at h
          · exact absurd h (by simp)
          · rename_i g1 r1 c1 pxa pya hrecA
            split at h
            · exact absurd h (by simp)
            · exact absurd h (by simp)
            · rename_i w1a hw1a
              try dsimp only at h
              split at h
              · exact absurd h (by simp)
              · rename_i w0b hw0b
                split at h
                · exact absurd h (by simp)
                · rename_i g2 r2 c2 pxb pyb hrecB
                  split at h
                  · exact absurd h (by simp)
                  · exact absurd h (by simp)
                  · rename_i w1b hw1b
                    try dsimp only at h
                    split at h
                    · exact absurd h (by simp)
                    · rename_i arc_a hla
                      split at h
                      · exact absurd h (by simp)
                      · rename_i arc_b hlb
                        have hle1 := ih entrants g a g1 r1 c1 pxa pya hL hrecA
                        have hL1 := LeafNoChildren_GraphLEW hle1 hL
                        have hle2 := ih entrants g1 b g2 r2 c2 pxb pyb hL1 hrecB
                        have hle12 := GraphLEW_trans hle1 hle2
                        have hL2 := LeafNoChildren_GraphLEW hle2 hL1
                        obtain ⟨hg', hr, hcnt, hea, heb, w0n, hw0n⟩ :=
                          finishRound_ok h
                        have hmemA2 : a ∈ g2.outNeighbors id := by
                          rw [outNeighbors_congr hle12.1]; exact hmemA
                        obtain ⟨rd2, hrd2⟩ :=
                          round_at_of_outNeighbors hL2 hmemA2 hw0n
                        rw [hg']
                        exact GraphLEW_trans hle12 (GraphLEW_setNode hrd2 _ _)
      · -- node_weight panic cases
        exact absurd h (by simp)

/-- C9 counterexample: a solve call overwrites a `Complete` round payload
with a *different* `Complete` payload — not a promotion from `Incomplete` to
`Complete`.  `T9` is the state `new([5, 5])` is left in whenever the crate's
coin-flip tiebreaker resolves the first solve to `B`; solving again
re-battles the root (its completeness is never checked), the 5-vs-5 battle
ties again, and the tiebreaker's other branch replaces
`Complete(B, "B won by random tiebreaker.")` with
`Complete(A, "A won by random tiebreaker.")`. -/
theorem C9_counterexample_complete_round_overwritten :
    T9.graph.nodes[0]? =
      some (.Round (.Complete .B "B won by random tiebreaker.")) ∧
    (T9.solve_round IB 0).2 = .ok (.A, 1, 5, 5) ∧
    (T9.solve_round IB 0).1.graph.nodes[0]? =
      some (.Round (.Complete .A "A won by random tiebreaker.")) ∧
    (T9.solve_round IB 0).1.graph.nodes[0]? ≠ T9.graph.nodes[0]? := by
  refine ⟨rfl, rfl, rfl, ?_⟩
  decide

/-- C9 amended: solving never mutates the bracket's topology.  For every
tournament whose entrant leaves have no children (true of every
builder-produced tournament, by `new_invariants`) and every
`solve`/`solve_round` call — successful or failing — the entrant list,
grand-finals root, edge list (with its A/B labels) and node count are
identical afterwards, and only `Round` node payloads change, each changed
node holding some `Complete` round afterwards.  The stronger direction of
the original claim — payloads move only from `Incomplete` to `Complete` —
is false of the program: the solver re-battles rounds that are already
`Complete` and overwrites their payloads with the freshly computed outcome,
which an effectful battle policy (the crate's random tiebreakers, or one
that mutates its entrants) can make differ from the stored value. -/
theorem C9_amended_solver_never_mutates_topology (bs : BattleSystem E M)
    (t : Tournament E M) (id : Nat) (hL : LeafNoChildren t.graph) :
    (t.solve_round bs id).1.entrants = t.entrants ∧
    (t.solve_round bs id).1.grand_finals = t.grand_finals ∧
    (t.solve_round bs id).1.graph.edges = t.graph.edges ∧
    (t.solve_round bs id).1.graph.nodes.length = t.graph.nodes.length ∧
    ∀ n : Nat, (t.solve_round bs id).1.graph.nodes[n]? = t.graph.nodes[n]? ∨
      ((∃ rd, t.graph.nodes[n]? = some (TournamentNode.Round rd)) ∧
       ∃ (res : TournamentRoundResult) (m : M),
         (t.solve_round bs id).1.graph.nodes[n]? =
           some (TournamentNode.Round (.Complete res m))) := by
  unfold Tournament.solve_round
  split
  · rename_i g1 r c ea eb heq
    have hle := solve_rec_frame bs _ t.entrants t.graph id g1 r c ea eb hL heq
    exact ⟨rfl, rfl, hle.1, hle.2.1, hle.2.2⟩
  · exact ⟨rfl, rfl, rfl, rfl, fun _ => Or.inl rfl⟩

/-- Witness for `C9_amended_solver_never_mutates_topology` on the
four-entrant tournament: the hypothesis holds concretely and the solved
tournament keeps its topology. -/
theorem C9_amended_witness :
    LeafNoChildren t4.graph ∧
    (t4.solve_round IB 0).1.graph.edges = t4.graph.edges ∧
    (t4.solve_round IB 0).1.graph.nodes.length = t4.graph.nodes.length ∧
    (t4.solve_round IB 0).1.entrants = t4.entrants :=
  ⟨by decide,
   (C9_amended_solver_never_mutates_topology IB t4 0 (by decide)).2.2.1,
   (C9_amended_solver_never_mutates_topology IB t4 0 (by decide)).2.2.2.1,
   (C9_amended_solver_never_mutates_topology IB t4 0 (by decide)).1⟩
